import Mathlib

/-!
# Verification of the dazzle-filekit file-operations core

This file gives a shallow embedding of the cross-platform file-operations
toolkit (`dazzle_filekit/operations.py`, `dazzle_filekit/utils/disk.py`) and
of the path-normalization subsystem described in the specification, and
proves the specification's claims about it.

Modelling conventions:

* Filesystem paths are segment lists (`FPath`).  The filesystem is an
  association list from paths to entries (`FS`); symbolic links are distinct
  entries and link traversal is not modelled (none of the claims under study
  depends on resolution through a symlink chain).
* Every fallible OS primitive (`shutil.move`, `shutil.copy2`, `os.unlink`,
  `os.chmod`, `os.symlink`, subprocess spawns, ...) is given its outcome by
  an explicit oracle record, so theorems quantify over all primitive
  behaviours.  Python exceptions caught by the source are modelled as the
  corresponding failure outcome of the oracle; functions that let no
  exception escape are total Lean functions.
* Each embedded operation additionally returns the list of primitive
  invocations it performed (`Ev`), in order, so that "attempted" /
  "not attempted" and ordering claims are statable.
* Python `int` is modelled as `Int`/`Nat`; the float `safety_margin` of
  `check_disk_space` is modelled as an exact rational, with `int(...)`
  truncation toward zero.
-/

namespace FileKit

/-- A filesystem path, as a list of segments. -/
abbrev FPath := List String

/-- A filesystem object: regular file (with abstract content), directory,
or symbolic link. -/
inductive Entry : Type where
  | file (content : Nat)
  | dir
  | symlink (target : FPath)
deriving DecidableEq, Repr

/-- The filesystem: an association list from paths to entries.  The first
binding for a path is the authoritative one. -/
abbrev FS := List (FPath × Entry)

/-- Look up the entry at a path. -/
def fsLookup : FS → FPath → Option Entry
  | [], _ => none
  | (q, e) :: rest, p => if q = p then some e else fsLookup rest p

/-- Remove any binding for a path. -/
def fsRemove : FS → FPath → FS
  | [], _ => []
  | (q, e) :: rest, p => if q = p then fsRemove rest p else (q, e) :: fsRemove rest p

/-- Bind a path to an entry, replacing any previous binding. -/
def fsSet (fs : FS) (p : FPath) (e : Entry) : FS :=
  (p, e) :: fsRemove fs p

/-- `Path.exists()` / `Path.is_symlink()` combined presence test: an object
of any kind is present at the path. -/
def fsExists (fs : FS) (p : FPath) : Bool :=
  (fsLookup fs p).isSome

/-- `Path.is_file()`: a regular file is present at the path. -/
def fsIsFile (fs : FS) (p : FPath) : Bool :=
  match fsLookup fs p with
  | some (.file _) => true
  | _ => false

/-- `Path.is_dir() and not Path.is_symlink()`: a real directory is present. -/
def fsIsDir (fs : FS) (p : FPath) : Bool :=
  match fsLookup fs p with
  | some .dir => true
  | _ => false

/-- Abstract content of the file at a path (0 if not a file). -/
def fsContent (fs : FS) (p : FPath) : Nat :=
  match fsLookup fs p with
  | some (.file c) => c
  | _ => 0

/-- The proper ancestor paths of `p` (shortest first), i.e. the directories
`Path(p).parent.mkdir(parents=True, exist_ok=True)` would create. -/
def parentsOf (p : FPath) : List FPath :=
  (List.range (p.length - 1)).map (fun i => p.take (i + 1))

/-- Create the missing ancestor directories of `p`
(`dest.parent.mkdir(parents=True, exist_ok=True)`). -/
def fsMkParents (fs : FS) (p : FPath) : FS :=
  (parentsOf p).foldl (fun acc q => if fsExists acc q then acc else fsSet acc q .dir) fs

/-- Create the missing ancestor directories of `p` and `p` itself
(`dest_base.mkdir(parents=True, exist_ok=True)`). -/
def fsMkdirAll (fs : FS) (p : FPath) : FS :=
  let fs1 := fsMkParents fs p
  if fsExists fs1 p then fs1 else fsSet fs1 p .dir

/-- Outcome of `shutil.move`: success, `OSError` with `errno.EXDEV`, or any
other exception (re-raised by the source and caught by the outer handler). -/
inductive MoveRes : Type where
  | ok
  | exdev
  | othererr
deriving DecidableEq, Repr

/-- Outcome of `os.symlink` on Windows: success, `winerror` 1314 (privilege
not held), or any other `OSError`. -/
inductive NativeRes : Type where
  | ok
  | privErr
  | otherErr
deriving DecidableEq, Repr

/-- Outcome of the optional dazzlelink helper step: module absent
(`ImportError`), call returned `True`, call returned `False`, or the call
raised. -/
inductive HelperRes : Type where
  | absent
  | ok
  | declined
  | exc
deriving DecidableEq, Repr

/-- Outcome of the `mklink` subprocess: exit status 0, nonzero exit status,
or the spawn raised. -/
inductive MklinkRes : Type where
  | ok
  | fail
  | exc
deriving DecidableEq, Repr

/-- A primitive invocation performed by an operation, with its outcome. -/
inductive Ev : Type where
  | mkdirp (ok : Bool)
  | robocopy (ok : Bool)
  | copy2 (ok : Bool)
  | shmove (r : MoveRes)
  | unlink (ok : Bool)
  | rmtree (ok : Bool)
  | chmod (ok : Bool)
  | utime (ok : Bool)
  | chown (ok : Bool)
  | setFileAttributes (ok : Bool)
  | attribSpawn (ok : Bool)
  | nativeTry (r : NativeRes)
  | helperSkipAbsent
  | helperTry (r : HelperRes)
  | mklinkTry (r : MklinkRes)
  | winFailNotice
deriving DecidableEq, Repr

/-- Result of `os.stat`: the fields of the stat record that
`collect_file_metadata` reads. -/
structure StatData : Type where
  mode : Nat
  mtime : Int
  atime : Int
  ctime : Int
  uid : Nat
  gid : Nat
deriving DecidableEq, Repr

/-- Oracle for `_collect_windows_metadata`: availability of pywin32, outcome
of `win32api.GetFileAttributes` (`none` = raised), and outcome of the
`attrib` subprocess (`none` = raised, otherwise exit status and stdout). -/
structure WinCollectEnv : Type where
  pywin32 : Bool
  getAttrs : Option Int
  attribRun : Option (Int × String)
deriving DecidableEq, Repr

/-- The `'windows'` namespace of a metadata snapshot: attribute bitmask from
pywin32, or the raw `attrib` output line as degraded fallback. -/
structure WinMeta : Type where
  attributes : Option Int := none
  attribOutput : Option String := none
deriving DecidableEq, Repr

/-- `_collect_windows_metadata(path)`: returns the empty record off Windows;
on Windows uses pywin32 when importable (a `GetFileAttributes` failure is
caught by the outer handler, yielding the empty record), otherwise the
`attrib` subprocess fallback (any failure yields the empty record). -/
def collect_windows_metadata (isWin : Bool) (env : WinCollectEnv) : WinMeta :=
  if ¬ isWin then {}
  else if env.pywin32 then
    match env.getAttrs with
    | some a => { attributes := some a }
    | none => {}
  else
    match env.attribRun with
    | some (rc, out) => if rc = 0 then { attribOutput := some out } else {}
    | none => {}

/-- A metadata snapshot as built by `collect_file_metadata`: each field is
`some` exactly when the corresponding dictionary key was set.  Timestamps
are `(modified, accessed, created)`. -/
structure Snapshot : Type where
  mode : Option Nat := none
  timestamps : Option (Int × Int × Int) := none
  windows : Option WinMeta := none
  unixMeta : Option (Nat × Nat) := none
deriving DecidableEq, Repr

/-- Oracle for `collect_file_metadata`: outcome of `Path.stat()` (`none` =
raised, caught by the outer handler) and the Windows-branch oracle. -/
structure CollectEnv : Type where
  statRes : Option StatData
  winEnv : WinCollectEnv
deriving DecidableEq, Repr

/-- `collect_file_metadata(path)`: never raises; on a stat failure the
partially built (empty) dictionary is returned; otherwise mode, the three
timestamps, and exactly one platform branch are populated, selected by the
runtime OS identity `isWin`. -/
def collect_file_metadata (isWin : Bool) (env : CollectEnv) : Snapshot :=
  match env.statRes with
  | none => {}
  | some st =>
    let base : Snapshot :=
      { mode := some st.mode
        timestamps := some (st.mtime, st.atime, st.ctime) }
    if isWin then
      { base with windows := some (collect_windows_metadata isWin env.winEnv) }
    else
      { base with unixMeta := some (st.uid, st.gid) }

/-- Oracle for `apply_file_metadata` and its platform helpers: outcomes of
`os.chmod`, `os.utime`, `os.chown`, `win32api.SetFileAttributes` (false =
raised) and the `attrib` subprocess spawns (false = spawn raised; the source
ignores the exit status of a successful spawn). -/
structure ApplyEnv : Type where
  chmodOk : Bool
  utimeOk : Bool
  chownOk : Bool
  pywin32 : Bool
  setAttrsOk : Bool
  attribSpawnOk : Bool
deriving DecidableEq, Repr

/-- `_apply_unix_metadata(path, metadata)`: returns `False` immediately on
Windows; otherwise attempts `os.chown` with the stored uid/gid (both keys
are always present together), downgrading a failure to a warning. -/
def apply_unix_metadata (isWin : Bool) (env : ApplyEnv) (_md : Nat × Nat) :
    Bool × List Ev :=
  if isWin then (false, [])
  else if env.chownOk then (true, [Ev.chown true])
  else (false, [Ev.chown false])

/-- The attribute flags of an `attrib` output line that
`_apply_windows_metadata` re-applies individually. -/
def attribFlags (s : String) : List Char :=
  ['A', 'R', 'H', 'S'].filter (fun c => s.data.contains c)

/-- `_apply_windows_metadata(path, metadata)`: returns `False` off Windows;
with pywin32, applies the attribute bitmask (`SetFileAttributes` raising is
caught by the outer handler and yields `False`); without pywin32, re-spawns
`attrib` for each recorded flag — the exit statuses of successful spawns are
not consulted, but a spawn failure raises into the outer handler. -/
def apply_windows_metadata (isWin : Bool) (env : ApplyEnv) (md : WinMeta) :
    Bool × List Ev :=
  if ¬ isWin then (false, [])
  else if env.pywin32 then
    match md.attributes with
    | some _ =>
      if env.setAttrsOk then (true, [Ev.setFileAttributes true])
      else (false, [Ev.setFileAttributes false])
    | none => (true, [])
  else
    match md.attribOutput with
    | some s =>
      match attribFlags s with
      | [] => (true, [])
      | fs =>
        if env.attribSpawnOk then (true, fs.map (fun _ => Ev.attribSpawn true))
        else (false, [Ev.attribSpawn false])
    | none => (true, [])

/-- The mode family of `apply_file_metadata`: `os.chmod` if the `'mode'` key
is present, a failure downgraded to a warning. -/
def modeStep (env : ApplyEnv) (md : Snapshot) : Bool × List Ev :=
  match md.mode with
  | some _ => (env.chmodOk, [Ev.chmod env.chmodOk])
  | none => (true, [])

/-- The timestamp family of `apply_file_metadata`: `os.utime` with
`(accessed, modified)` if the `'timestamps'` key is present, a failure
downgraded to a warning. -/
def timeStep (env : ApplyEnv) (md : Snapshot) : Bool × List Ev :=
  match md.timestamps with
  | some _ => (env.utimeOk, [Ev.utime env.utimeOk])
  | none => (true, [])

/-- The platform family of `apply_file_metadata`: the source computes
`success and _apply_..._metadata(...)`, so Python's short-circuit skips the
helper call when `succ` is already `False`. -/
def platStep (isWin : Bool) (env : ApplyEnv) (md : Snapshot) (succ : Bool) :
    Bool × List Ev :=
  if isWin then
    match md.windows with
    | some wm => if succ then apply_windows_metadata isWin env wm else (false, [])
    | none => (succ, [])
  else
    match md.unixMeta with
    | some um => if succ then apply_unix_metadata isWin env um else (false, [])
    | none => (succ, [])

/-- `apply_file_metadata(path, metadata)`: mode and timestamp families are
attempted independently (each failure downgraded to a warning); the platform
branch is combined with the short-circuiting conjunction of the running
success flag. -/
def apply_file_metadata (isWin : Bool) (env : ApplyEnv) (md : Snapshot) :
    Bool × List Ev :=
  let m := modeStep env md
  let t := timeStep env md
  let p := platStep isWin env md (m.1 && t.1)
  (p.1, m.2 ++ t.2 ++ p.2)

/-- `remove_file(path, force)`: outcome of the single `os.unlink` call is
given by the oracle `unlinkOk`. -/
def remove_file (unlinkOk : Bool) (fs : FS) (p : FPath) (force : Bool) :
    Bool × FS × List Ev :=
  if ¬ fsExists fs p then (true, fs, [])
  else if ¬ fsIsFile fs p then (false, fs, [])
  else if unlinkOk then (true, fsRemove fs p, [Ev.unlink true])
  else if force then (true, fs, [Ev.unlink false])
  else (false, fs, [Ev.unlink false])

/-- Oracle for `copy_file`: outcomes of the destination-parents `mkdir`, the
robocopy attempt (Windows only), `shutil.copy2` (false = raised), plus the
oracles of the metadata collect/apply calls. -/
structure CopyEnv : Type where
  mkdirOk : Bool
  robocopyOk : Bool
  copy2Ok : Bool
  collectEnv : CollectEnv
  applyEnv : ApplyEnv

/-- `copy_file(source, destination, preserve_attrs, overwrite)`: precondition
checks before any mutation, then parent creation, optional metadata capture,
the platform copy primitive (robocopy first on Windows with preservation,
falling back to `shutil.copy2`), and optional metadata application whose
result is discarded.  Any exception inside the `try` yields `False`. -/
def copy_file (isWin : Bool) (env : CopyEnv) (fs : FS) (src dst : FPath)
    (preserve ow : Bool) : Bool × FS × List Ev :=
  if ¬ fsExists fs src then (false, fs, [])
  else if ¬ fsIsFile fs src then (false, fs, [])
  else if fsExists fs dst && !ow then (false, fs, [])
  else if ¬ env.mkdirOk then (false, fs, [Ev.mkdirp false])
  else
    let fs1 := fsMkParents fs dst
    let md := collect_file_metadata isWin env.collectEnv
    let c := fsContent fs src
    if isWin && preserve then
      if env.robocopyOk then
        (true, fsSet fs1 dst (.file c),
          [Ev.mkdirp true, Ev.robocopy true]
            ++ (apply_file_metadata isWin env.applyEnv md).2)
      else if env.copy2Ok then
        (true, fsSet fs1 dst (.file c),
          [Ev.mkdirp true, Ev.robocopy false, Ev.copy2 true]
            ++ (apply_file_metadata isWin env.applyEnv md).2)
      else (false, fs1, [Ev.mkdirp true, Ev.robocopy false, Ev.copy2 false])
    else
      if env.copy2Ok then
        (true, fsSet fs1 dst (.file c),
          [Ev.mkdirp true, Ev.copy2 true]
            ++ (if preserve then (apply_file_metadata isWin env.applyEnv md).2 else []))
      else (false, fs1, [Ev.mkdirp true, Ev.copy2 false])

/-- Oracle for `move_file`: outcomes of the destination-parents `mkdir`,
`shutil.move`, the `os.unlink` of the cross-device fallback, plus the
oracles for the fallback `copy_file` call and the metadata collect/apply
calls. -/
structure MoveEnv : Type where
  mkdirOk : Bool
  moveRes : MoveRes
  unlinkOk : Bool
  copyEnv : CopyEnv
  collectEnv : CollectEnv
  applyEnv : ApplyEnv

/-- `move_file(source, destination, preserve_attrs, overwrite)`: precondition
checks before any mutation, then parent creation, optional metadata capture,
`shutil.move`; on `errno.EXDEV` the fallback is `copy_file` followed — only
if the copy returned success — by `os.unlink(source)`; any other exception
yields `False`.  Metadata is reapplied after a successful move. -/
def move_file (isWin : Bool) (env : MoveEnv) (fs : FS) (src dst : FPath)
    (preserve ow : Bool) : Bool × FS × List Ev :=
  if ¬ fsExists fs src then (false, fs, [])
  else if ¬ fsIsFile fs src then (false, fs, [])
  else if fsExists fs dst && !ow then (false, fs, [])
  else if ¬ env.mkdirOk then (false, fs, [Ev.mkdirp false])
  else
    let fs1 := fsMkParents fs dst
    let md := collect_file_metadata isWin env.collectEnv
    let c := fsContent fs src
    match env.moveRes with
    | .ok =>
      (true, fsSet (fsRemove fs1 src) dst (.file c),
        [Ev.mkdirp true, Ev.shmove .ok]
          ++ (if preserve then (apply_file_metadata isWin env.applyEnv md).2 else []))
    | .exdev =>
      let cr := copy_file isWin env.copyEnv fs1 src dst preserve ow
      if cr.1 then
        if env.unlinkOk then
          (true, fsRemove cr.2.1 src,
            [Ev.mkdirp true, Ev.shmove .exdev] ++ cr.2.2 ++ [Ev.unlink true]
              ++ (if preserve then (apply_file_metadata isWin env.applyEnv md).2 else []))
        else
          (false, cr.2.1,
            [Ev.mkdirp true, Ev.shmove .exdev] ++ cr.2.2 ++ [Ev.unlink false])
      else (false, cr.2.1, [Ev.mkdirp true, Ev.shmove .exdev] ++ cr.2.2)
    | .othererr => (false, fs1, [Ev.mkdirp true, Ev.shmove .othererr])

/-- Oracle for `create_symlink`: outcomes of the pre-flight removal
(`shutil.rmtree` / `Path.unlink`), the parents `mkdir`, `os.symlink`, the
optional dazzlelink helper, and the `mklink` subprocess. -/
structure SymEnv : Type where
  removeOk : Bool
  mkdirOk : Bool
  nativeRes : NativeRes
  helper : HelperRes
  mklink : MklinkRes
deriving DecidableEq, Repr

/-- Method 3 of `_create_windows_symlink`: the `mklink` subprocess; on a
nonzero exit status or a spawn failure the chain is exhausted and the
single failure notice enumerating the three remedies is emitted. -/
def mklinkStep (env : SymEnv) (fs : FS) (target link : FPath) (t : List Ev) :
    Bool × FS × List Ev :=
  match env.mklink with
  | .ok => (true, fsSet fs link (.symlink target), t ++ [Ev.mklinkTry .ok])
  | .fail => (false, fs, t ++ [Ev.mklinkTry .fail, Ev.winFailNotice])
  | .exc => (false, fs, t ++ [Ev.mklinkTry .exc, Ev.winFailNotice])

/-- `_create_windows_symlink(target, link, is_directory)`: `os.symlink`
first (any `OSError` tolerated, winerror 1314 expected), then the optional
dazzlelink helper (`ImportError` silently skipped, a `False` result or an
exception falls through), then the `mklink` subprocess; each step at most
once, in this fixed order. -/
def create_windows_symlink (env : SymEnv) (fs : FS) (target link : FPath)
    (_isDir : Bool) : Bool × FS × List Ev :=
  match env.nativeRes with
  | .ok => (true, fsSet fs link (.symlink target), [Ev.nativeTry .ok])
  | r =>
    match env.helper with
    | .ok => (true, fsSet fs link (.symlink target), [Ev.nativeTry r, Ev.helperTry .ok])
    | .absent => mklinkStep env fs target link [Ev.nativeTry r, Ev.helperSkipAbsent]
    | .declined => mklinkStep env fs target link [Ev.nativeTry r, Ev.helperTry .declined]
    | .exc => mklinkStep env fs target link [Ev.nativeTry r, Ev.helperTry .exc]

/-- The part of `create_symlink` after the pre-flight removal: parent
creation, auto-detection of `target_is_directory`, then the single native
primitive on POSIX or the Windows three-step chain. -/
def createSymlinkTail (isWin : Bool) (env : SymEnv) (fs : FS)
    (target link : FPath) (tid : Option Bool) (t : List Ev) : Bool × FS × List Ev :=
  if ¬ env.mkdirOk then (false, fs, t ++ [Ev.mkdirp false])
  else
    let fs1 := fsMkParents fs link
    let isDir := tid.getD (fsIsDir fs1 target)
    if ¬ isWin then
      match env.nativeRes with
      | .ok => (true, fsSet fs1 link (.symlink target), t ++ [Ev.mkdirp true, Ev.nativeTry .ok])
      | r => (false, fs1, t ++ [Ev.mkdirp true, Ev.nativeTry r])
    else
      let w := create_windows_symlink env fs1 target link isDir
      (w.1, w.2.1, t ++ [Ev.mkdirp true] ++ w.2.2)

/-- `create_symlink(target, link, force, target_is_directory)`: pre-flight
handling of an existing object at the link path (`exists() or is_symlink()`),
removal under `force` (recursive `rmtree` for a real directory, `unlink`
otherwise, a failure fatal to the call), then the platform branch. -/
def create_symlink (isWin : Bool) (env : SymEnv) (fs : FS)
    (target link : FPath) (force : Bool) (tid : Option Bool) : Bool × FS × List Ev :=
  if fsExists fs link then
    if ¬ force then (false, fs, [])
    else if ¬ env.removeOk then
      (false, fs, [if fsIsDir fs link then Ev.rmtree false else Ev.unlink false])
    else
      createSymlinkTail isWin env (fsRemove fs link) target link tid
        [if fsIsDir fs link then Ev.rmtree true else Ev.unlink true]
  else createSymlinkTail isWin env fs target link tid []

/-- The strategy index of a symlink-creation attempt event (0 = native
primitive, 1 = helper library, 2 = shell `mklink`). -/
def evAttempt : Ev → Option Nat
  | .nativeTry _ => some 0
  | .helperTry _ => some 1
  | .mklinkTry _ => some 2
  | _ => none

/-- Disk usage statistics (`DiskUsage` named tuple). -/
structure DiskUsageT : Type where
  total : Int
  used : Int
  free : Int
deriving DecidableEq, Repr

/-- An exception escaping `check_disk_space`: the rich
`InsufficientSpaceError` with its `required`, `available` and
`shortfall = required - available` fields (the constructor argument order
mirrors `__init__`, which derives `shortfall`), or the re-raised `OSError`
from an unusable destination path. -/
inductive DiskErr : Type where
  | insufficient (required available shortfall : Int) (msg : String)
  | osError
deriving DecidableEq, Repr

/-- Python `int(...)` conversion of a rational: truncation toward zero. -/
def intTrunc (q : ℚ) : Int :=
  if 0 ≤ q then ⌊q⌋ else ⌈q⌉

/-- `check_disk_space(dest_path, required_bytes, safety_margin,
raise_on_insufficient)`.  `usage` is the outcome of `get_disk_usage`
(`none` = `OSError`).  The float `safety_margin` is modelled as an exact
rational; the human-readable messages are abbreviated (the byte formatting
of `_format_bytes` carries no specified content). -/
def check_disk_space (usage : Option DiskUsageT) (requiredBytes : Int)
    (safetyMargin : ℚ) (raiseOnInsufficient : Bool) :
    Except DiskErr (Bool × Int × Int × String) :=
  match usage with
  | none =>
    if raiseOnInsufficient then .error .osError
    else .ok (false, requiredBytes, 0, "Cannot check disk space")
  | some u =>
    let available := u.free
    let marginBytes := intTrunc ((requiredBytes : ℚ) * safetyMargin)
    let requiredWithMargin := requiredBytes + marginBytes
    if available ≥ requiredWithMargin then
      .ok (true, requiredWithMargin, available, "Sufficient space")
    else if raiseOnInsufficient then
      .error (.insufficient requiredWithMargin available
        (requiredWithMargin - available) "Insufficient space")
    else
      .ok (false, requiredWithMargin, available, "Insufficient space")

/-- Whether a `check_disk_space` outcome is the rich insufficient-space
error. -/
def isInsufficientErr : Except DiskErr (Bool × Int × Int × String) → Bool
  | .error (.insufficient _ _ _ _) => true
  | _ => false

/-- Whether a `check_disk_space` outcome is a normal boolean-plus-message
return (no exception escaped). -/
def isOkResult : Except DiskErr (Bool × Int × Int × String) → Bool
  | .ok _ => true
  | _ => false

/-- The condition under which the free space is below the margin-padded
requirement. -/
def insufficientCond (usage : Option DiskUsageT) (requiredBytes : Int)
    (safetyMargin : ℚ) : Bool :=
  match usage with
  | some u =>
    decide (u.free < requiredBytes + intTrunc ((requiredBytes : ℚ) * safetyMargin))
  | none => false

/-- Oracle for `copy_files_with_path`: outcome of the initial
`dest_base.mkdir` (which is outside the `try` and so propagates on failure)
and a per-file copy oracle. -/
structure BatchEnv : Type where
  mkdirBaseOk : Bool
  perFile : Nat → CopyEnv

/-- One iteration of the `copy_files_with_path` loop: a missing or
non-regular source is recorded as `(False, source_path)` and the state is
untouched; a `create_dest_path` failure (`cdp src = none`, the only raiser
inside the per-file `try`) is recorded the same way; otherwise `copy_file`
runs and its outcome is recorded with the resolved destination. -/
def copyBatchStep (isWin : Bool) (cenv : CopyEnv) (cdp : FPath → Option FPath)
    (preserve ow : Bool) (acc : List (FPath × (Bool × FPath)) × FS) (src : FPath) :
    List (FPath × (Bool × FPath)) × FS :=
  if ¬ (fsExists acc.2 src && fsIsFile acc.2 src) then
    (acc.1 ++ [(src, (false, src))], acc.2)
  else
    match cdp src with
    | none => (acc.1 ++ [(src, (false, src))], acc.2)
    | some dst =>
      let r := copy_file isWin cenv acc.2 src dst preserve ow
      (acc.1 ++ [(src, (r.1, dst))], r.2.1)

/-- The `copy_files_with_path` loop over the source list (`i` indexes the
per-file oracle). -/
def copyBatchGo (isWin : Bool) (envs : Nat → CopyEnv) (cdp : FPath → Option FPath)
    (preserve ow : Bool) :
    Nat → List FPath → (List (FPath × (Bool × FPath)) × FS) →
      List (FPath × (Bool × FPath)) × FS
  | _, [], acc => acc
  | i, src :: rest, acc =>
    copyBatchGo isWin envs cdp preserve ow (i + 1) rest
      (copyBatchStep isWin (envs i) cdp preserve ow acc src)

/-- `copy_files_with_path(source_files, source_base, dest_base, ...)`:
creates the destination base directory (a failure there propagates), then
processes each source independently, accumulating the result map.
`cdp` abstracts the `create_dest_path` collaborator from the missing
`paths` module (`none` = raised). -/
def copy_files_with_path (isWin : Bool) (env : BatchEnv) (cdp : FPath → Option FPath)
    (fs : FS) (sources : List FPath) (destBase : FPath) (preserve ow : Bool) :
    Except Unit (List (FPath × (Bool × FPath)) × FS) :=
  if ¬ env.mkdirBaseOk then .error ()
  else .ok (copyBatchGo isWin env.perFile cdp preserve ow 0 sources ([], fsMkdirAll fs destBase))

/-- Whether the result map holds an entry for a source path. -/
def containsKey (l : List (FPath × (Bool × FPath))) (p : FPath) : Bool :=
  l.any (fun kv => decide (kv.1 = p))

/-- A concrete state for batch witnesses: one regular file. -/
def batchFS : FS := [(["a"], Entry.file 1)]

/-- A concrete destination-path resolver for batch witnesses. -/
def batchCdp (p : FPath) : Option FPath := some ("o" :: p)

/-- A collect oracle for concrete witnesses: stat raises. -/
def okCollectEnv : CollectEnv :=
  { statRes := none,
    winEnv := { pywin32 := false, getAttrs := none, attribRun := none } }

/-- An apply oracle for concrete witnesses: every primitive succeeds. -/
def okApplyEnv : ApplyEnv :=
  { chmodOk := true, utimeOk := true, chownOk := true,
    pywin32 := false, setAttrsOk := true, attribSpawnOk := true }

/-- A copy oracle for concrete witnesses: every primitive succeeds. -/
def okCopyEnv : CopyEnv :=
  { mkdirOk := true, robocopyOk := true, copy2Ok := true,
    collectEnv := okCollectEnv, applyEnv := okApplyEnv }

/-- A copy oracle for concrete witnesses: the copy primitive raises. -/
def failCopyEnv : CopyEnv :=
  { mkdirOk := true, robocopyOk := false, copy2Ok := false,
    collectEnv := okCollectEnv, applyEnv := okApplyEnv }

/-- A move oracle for concrete witnesses: `shutil.move` raises `EXDEV` and
the fallback copy fails. -/
def exdevMoveEnv : MoveEnv :=
  { mkdirOk := true, moveRes := .exdev, unlinkOk := true,
    copyEnv := failCopyEnv, collectEnv := okCollectEnv, applyEnv := okApplyEnv }

/-- A move oracle for concrete witnesses: every primitive succeeds. -/
def okMoveEnv : MoveEnv :=
  { mkdirOk := true, moveRes := .ok, unlinkOk := true,
    copyEnv := okCopyEnv, collectEnv := okCollectEnv, applyEnv := okApplyEnv }

/-- Whether a recorded primitive invocation belongs to the metadata-apply
family (the only events `apply_file_metadata` can emit). -/
def isMetaEv : Ev → Bool
  | .chmod _ => true
  | .utime _ => true
  | .chown _ => true
  | .setFileAttributes _ => true
  | .attribSpawn _ => true
  | _ => false

/-- Whether a recorded primitive invocation succeeded. -/
def evOk : Ev → Bool
  | .mkdirp ok => ok
  | .robocopy ok => ok
  | .copy2 ok => ok
  | .shmove r => r = MoveRes.ok
  | .unlink ok => ok
  | .rmtree ok => ok
  | .chmod ok => ok
  | .utime ok => ok
  | .chown ok => ok
  | .setFileAttributes ok => ok
  | .attribSpawn ok => ok
  | .nativeTry r => r = NativeRes.ok
  | .helperSkipAbsent => true
  | .helperTry r => r = HelperRes.ok
  | .mklinkTry r => r = MklinkRes.ok
  | .winFailNotice => true

/-- Snapshot on POSIX with all three families present, used to exhibit the
short-circuit in `apply_file_metadata`. -/
def mdAllPosix : Snapshot :=
  { mode := some 420, timestamps := some (1, 2, 3), unixMeta := some (1000, 1000) }

/-- Oracle where `os.chmod` fails but `os.utime` and `os.chown` would
succeed. -/
def envChmodFails : ApplyEnv :=
  { chmodOk := false, utimeOk := true, chownOk := true,
    pywin32 := false, setAttrsOk := true, attribSpawnOk := true }

/-- The platform a path is normalized toward (the spec's
`target_platform = current OS`). -/
inductive Platform : Type where
  | windows
  | posix
deriving DecidableEq, Repr

/-- The lowercase ASCII letters. -/
def lowersList : List Char :=
  ['a', 'b', 'c', 'd', 'e', 'f', 'g', 'h', 'i', 'j', 'k', 'l', 'm',
   'n', 'o', 'p', 'q', 'r', 's', 't', 'u', 'v', 'w', 'x', 'y', 'z']

/-- The uppercase ASCII letters. -/
def uppersList : List Char :=
  ['A', 'B', 'C', 'D', 'E', 'F', 'G', 'H', 'I', 'J', 'K', 'L', 'M',
   'N', 'O', 'P', 'Q', 'R', 'S', 'T', 'U', 'V', 'W', 'X', 'Y', 'Z']

/-- The characters recognized as a single-letter drive. -/
def driveChars : List Char := lowersList ++ uppersList

/-- Whether a character is a drive letter (lowercase or uppercase). -/
def isDriveChar (c : Char) : Bool := decide (c ∈ driveChars)

/-- Uppercase a drive letter (identity elsewhere). -/
def upChar (c : Char) : Char :=
  match (lowersList.zip uppersList).find? (fun pr => pr.1 == c) with
  | some pr => pr.2
  | none => c

/-- Lowercase a drive letter (identity elsewhere). -/
def lowChar (c : Char) : Char :=
  match (uppersList.zip lowersList).find? (fun pr => pr.1 == c) with
  | some pr => pr.2
  | none => c

/-- Rewrite a backslash to a forward slash (identity elsewhere). -/
def slashOf (c : Char) : Char := if c = '\\' then '/' else c

/-- Rewrite a forward slash to a backslash (identity elsewhere). -/
def backOf (c : Char) : Char := if c = '/' then '\\' else c

/-- Rewrite every backslash of a character list to a forward slash. -/
def toSlashC (l : List Char) : List Char := l.map slashOf

/-- Rewrite every forward slash of a character list to a backslash. -/
def toBackC (l : List Char) : List Char := l.map backOf

/-- Split a character list on forward slashes. -/
def splitSlash : List Char → List (List Char)
  | [] => [[]]
  | c :: cs =>
    if c = '/' then [] :: splitSlash cs
    else
      match splitSlash cs with
      | [] => [[c]]
      | s :: ss => (c :: s) :: ss

/-- Join character lists with a separator character. -/
def joinWith (sep : Char) : List (List Char) → List Char
  | [] => []
  | [s] => s
  | s :: ss => s ++ sep :: joinWith sep ss

/-- Modelled from the spec: recognition of the drive-rooted input forms of
`PathNormalizer` (section 4.1), over slash-normalized segments.  The three
recognized forms are the WSL mount path `/mnt/<letter>/...`, the Git-Bash
drive path `/<letter>/...`, and a leading `<letter>:` Windows drive
(either separator style).  Returns the drive letter and the remaining
segments, or `none` for any other shape (which passes through).  The
`paths` module holding this code is not part of the provided sources. -/
def parseDrive : List (List Char) → Option (Char × List (List Char))
  | [] :: s1 :: rest =>
    (match s1, rest with
      | ['m', 'n', 't'], s2 :: rest2 =>
        (match s2 with
          | [d] => if isDriveChar d then some (d, rest2) else none
          | _ => none)
      | [d], _ => if isDriveChar d then some (d, rest) else none
      | _, _ => none)
  | s0 :: rest =>
    (match s0 with
      | [d, c] => if c = ':' ∧ isDriveChar d then some (d, rest) else none
      | _ => none)
  | [] => none

/-- Render the tail of a Windows drive path: empty for a drive root (no
trailing separator), otherwise a backslash-joined segment list. -/
def renderTail : List (List Char) → List Char
  | [] => []
  | s :: ss => '\\' :: joinWith '\\' (s :: ss)

/-- Modelled from the spec: the Windows-target rendering of a recognized
drive form — uppercased drive letter, `:`, and the backslash-joined
remaining nonempty segments, with no trailing separator for a bare drive
root. -/
def renderWin (d : Char) (rest : List (List Char)) : List Char :=
  upChar d :: ':' :: renderTail (rest.filter (fun s => !s.isEmpty))

/-- Modelled from the spec: normalization toward Windows — a recognized
drive form is rendered natively, anything else passes through with `/`
rewritten to `\`. -/
def normWinChars (l : List Char) : List Char :=
  match parseDrive (splitSlash (toSlashC l)) with
  | some (d, rest) => renderWin d rest
  | none => toBackC l

/-- Modelled from the spec: normalization toward POSIX — `\` is rewritten
to `/` and a leading `X:` becomes `/x`; anything else passes through. -/
def normPosixChars (l : List Char) : List Char :=
  match toSlashC l with
  | d :: ':' :: rest => if isDriveChar d then '/' :: lowChar d :: rest else toSlashC l
  | _ => toSlashC l

/-- Modelled from the spec: the normalizer over character lists; the empty
input yields the current-directory canonical value. -/
def normChars (plat : Platform) (l : List Char) : List Char :=
  if l = [] then ['.']
  else
    match plat with
    | .windows => normWinChars l
    | .posix => normPosixChars l

/-- The current-directory canonical value. -/
def currentDirCanonical : String := "."

/-- Modelled from the spec: `normalize(path, target_platform)` of
`PathNormalizer` (the `paths` module is not among the provided sources).
A pure, total string transform: it touches no filesystem state and can
raise nothing. -/
def normalize_path (plat : Platform) (p : String) : String :=
  String.mk (normChars plat p.data)

/-- C10: for every path at which no filesystem object exists, `remove_file`
returns `true` without raising and without touching the filesystem, for
either value of `force` and any behaviour of the unlink primitive — a
missing file is treated as already removed. -/
theorem remove_file_missing_is_success (unlinkOk : Bool) (fs : FS) (p : FPath)
    (force : Bool) (h : fsLookup fs p = none) :
    remove_file unlinkOk fs p force = (true, fs, []) := by
  simp [remove_file, fsExists, h]

/-- Witness for `remove_file_missing_is_success` at a concrete state. -/
theorem remove_file_missing_is_success_witness :
    remove_file false [([ "a" ], Entry.dir)] ["b"] false = (true, [([ "a" ], Entry.dir)], []) :=
  remove_file_missing_is_success false [(["a"], Entry.dir)] ["b"] false (by decide)

/-- C7: `collect_file_metadata` never raises (it is a total function of the
state and oracle); when `stat` succeeds the snapshot has mode and the three
timestamps populated, and the platform-extra namespace is populated from
exactly one of the two platform branches — the `windows` key only on
Windows, the `unix` key only on POSIX — selected by the runtime OS identity;
when the Windows-specific branch read fails (pywin32 present but
`GetFileAttributes` raises, or pywin32 absent and the `attrib` fallback
fails or raises) the platform-extra namespace is the empty record. -/
theorem collect_metadata_platform_exclusive (isWin : Bool) (env : CollectEnv) :
    (isWin = true → (collect_file_metadata isWin env).unixMeta = none)
    ∧ (isWin = false → (collect_file_metadata isWin env).windows = none)
    ∧ (∀ st, env.statRes = some st →
        (collect_file_metadata isWin env).mode = some st.mode
        ∧ (collect_file_metadata isWin env).timestamps = some (st.mtime, st.atime, st.ctime)
        ∧ (isWin = true →
            (collect_file_metadata isWin env).windows
              = some (collect_windows_metadata true env.winEnv))
        ∧ (isWin = false →
            (collect_file_metadata isWin env).unixMeta = some (st.uid, st.gid)))
    ∧ (env.winEnv.pywin32 = true → env.winEnv.getAttrs = none →
        collect_windows_metadata true env.winEnv = {})
    ∧ (env.winEnv.pywin32 = false → ∀ rc out, env.winEnv.attribRun = some (rc, out) →
        rc ≠ 0 → collect_windows_metadata true env.winEnv = {})
    ∧ (env.winEnv.pywin32 = false → env.winEnv.attribRun = none →
        collect_windows_metadata true env.winEnv = {}) := by
  refine ⟨?_, ?_, ?_, ?_, ?_, ?_⟩
  · intro hw
    cases h : env.statRes <;> simp [collect_file_metadata, h, hw]
  · intro hw
    cases h : env.statRes <;> simp [collect_file_metadata, h, hw]
  · intro st hst
    cases isWin <;> simp [collect_file_metadata, hst]
  · intro hpy hga
    simp [collect_windows_metadata, hpy, hga]
  · intro hpy rc out har hrc
    simp [collect_windows_metadata, hpy, har, hrc]
  · intro hpy har
    simp [collect_windows_metadata, hpy, har]

/-- Witness for `collect_metadata_platform_exclusive` at a concrete oracle:
Windows runtime, stat succeeds, pywin32 importable but the attribute read
raises. -/
theorem collect_metadata_platform_exclusive_witness :
    (collect_file_metadata true
      { statRes := some { mode := 420, mtime := 1, atime := 2, ctime := 3, uid := 0, gid := 0 },
        winEnv := { pywin32 := true, getAttrs := none, attribRun := none } }).unixMeta = none
    ∧ (collect_file_metadata true
      { statRes := some { mode := 420, mtime := 1, atime := 2, ctime := 3, uid := 0, gid := 0 },
        winEnv := { pywin32 := true, getAttrs := none, attribRun := none } }).mode = some 420
    ∧ collect_windows_metadata true { pywin32 := true, getAttrs := none, attribRun := none } = {} := by
  have h := collect_metadata_platform_exclusive true
    { statRes := some { mode := 420, mtime := 1, atime := 2, ctime := 3, uid := 0, gid := 0 },
      winEnv := { pywin32 := true, getAttrs := none, attribRun := none } }
  exact ⟨h.1 rfl, (h.2.2.1 _ rfl).1, h.2.2.2.1 rfl rfl⟩

/-- C4 counterexample: with all three field families present on POSIX and an
oracle where only `os.chmod` fails, the platform-specific branch is never
attempted — the trace holds no `chown` invocation — because the source
combines it as `success and _apply_unix_metadata(...)`, which Python
short-circuits once `success` is `False`.  This refutes the claim that a
chmod failure does not prevent the platform-specific branch from being
attempted. -/
theorem apply_metadata_platform_branch_skipped_cex :
    mdAllPosix.unixMeta.isSome = true
    ∧ apply_file_metadata false envChmodFails mdAllPosix
        = (false, [Ev.chmod false, Ev.utime true]) := by
  constructor
  · rfl
  · rfl

/-- Helper: a successful mode family's trace holds only successful events. -/
theorem modeStep_ok (env : ApplyEnv) (md : Snapshot) (h1 : (modeStep env md).1 = true) :
    ∀ x ∈ (modeStep env md).2, evOk x = true := by
  intro x hx
  unfold modeStep at h1 hx
  rcases hh : md.mode with _ | m <;> rw [hh] at h1 hx
  · simp at hx
  · simp at h1 hx
    subst hx
    simp [evOk, h1]

/-- Helper: a successful timestamp family's trace holds only successful
events. -/
theorem timeStep_ok (env : ApplyEnv) (md : Snapshot) (h1 : (timeStep env md).1 = true) :
    ∀ x ∈ (timeStep env md).2, evOk x = true := by
  intro x hx
  unfold timeStep at h1 hx
  rcases hh : md.timestamps with _ | ts <;> rw [hh] at h1 hx
  · simp at hx
  · simp at h1 hx
    subst hx
    simp [evOk, h1]

/-- Helper: with the running success flag already `False`, the platform
family performs no primitive call and the aggregate is `False`. -/
theorem platStep_false (isWin : Bool) (env : ApplyEnv) (md : Snapshot) :
    platStep isWin env md false = (false, []) := by
  unfold platStep
  cases isWin <;> simp <;>
    [rcases md.unixMeta with _ | um; rcases md.windows with _ | wm] <;> simp

/-- Helper: a successful Windows platform family's trace holds only
successful events. -/
theorem apply_windows_metadata_ok (isWin : Bool) (env : ApplyEnv) (wm : WinMeta)
    (h1 : (apply_windows_metadata isWin env wm).1 = true) :
    ∀ x ∈ (apply_windows_metadata isWin env wm).2, evOk x = true := by
  intro x hx
  unfold apply_windows_metadata at h1 hx
  by_cases hw : isWin <;> simp only [hw] at h1 hx
  · by_cases hp : env.pywin32 <;>
      simp only [hp, if_true, if_false, ite_true, ite_false] at h1 hx
    · rcases ha : wm.attributes with _ | a <;> simp only [ha] at h1 hx
      · simp at hx
      · by_cases hs : env.setAttrsOk <;> simp [hs] at h1 hx <;> simp [hx, evOk, hs]
    · rcases ha : wm.attribOutput with _ | s <;> simp only [ha] at h1 hx
      · simp at hx
      · rcases hf : attribFlags s with _ | ⟨c, cs⟩ <;> simp only [hf] at h1 hx
        · simp at hx
        · by_cases hb : env.attribSpawnOk <;> simp [hb] at h1 hx
          rcases hx with hx | hx <;> simp [hx, evOk]
  · simp at h1

/-- Helper: a successful POSIX platform family's trace holds only successful
events. -/
theorem apply_unix_metadata_ok (isWin : Bool) (env : ApplyEnv) (um : Nat × Nat)
    (h1 : (apply_unix_metadata isWin env um).1 = true) :
    ∀ x ∈ (apply_unix_metadata isWin env um).2, evOk x = true := by
  intro x hx
  unfold apply_unix_metadata at h1 hx
  by_cases hw : isWin <;> simp only [hw] at h1 hx
  · simp at h1
  · by_cases hc : env.chownOk <;> simp [hc] at h1 hx <;> simp [hx, evOk, hc]

/-- Helper: a successful platform family's trace holds only successful
events. -/
theorem platStep_ok (isWin : Bool) (env : ApplyEnv) (md : Snapshot) (succ : Bool)
    (h1 : (platStep isWin env md succ).1 = true) :
    ∀ x ∈ (platStep isWin env md succ).2, evOk x = true := by
  intro x hx
  unfold platStep at h1 hx
  by_cases hw : isWin <;> simp only [hw, if_true, if_false, ite_true, ite_false] at h1 hx
  · rcases hy : md.windows with _ | wm <;> rw [hy] at h1 hx
    · simp at hx
    · cases succ <;> simp at h1 hx
      exact apply_windows_metadata_ok isWin env wm (by simp [hw]; exact h1) x (by simp [hw]; exact hx)
  · rcases hy : md.unixMeta with _ | um <;> rw [hy] at h1 hx
    · simp at hx
    · cases succ <;> simp at h1 hx
      exact apply_unix_metadata_ok isWin env um (by simp [hw]; exact h1) x (by simp [hw]; exact hx)

/-- C4 amended: mode and timestamp families are applied independently — a
chmod failure does not prevent timestamp application — but the
platform-specific branch is attempted only when every family attempted
before it succeeded (the source short-circuits `success and _apply_...`);
the returned boolean is `true` only if every attempted field-write
succeeded. -/
theorem apply_metadata_families (isWin : Bool) (env : ApplyEnv) (md : Snapshot) :
    (md.timestamps.isSome = true → Ev.utime env.utimeOk ∈ (apply_file_metadata isWin env md).2)
    ∧ ((md.mode.isSome = true ∧ env.chmodOk = false)
        ∨ (md.timestamps.isSome = true ∧ env.utimeOk = false) →
        ∀ b : Bool, Ev.chown b ∉ (apply_file_metadata isWin env md).2
          ∧ Ev.setFileAttributes b ∉ (apply_file_metadata isWin env md).2
          ∧ Ev.attribSpawn b ∉ (apply_file_metadata isWin env md).2)
    ∧ ((apply_file_metadata isWin env md).1 = true →
        ∀ e ∈ (apply_file_metadata isWin env md).2, evOk e = true) := by
  refine ⟨?_, ?_, ?_⟩
  · intro h
    rcases ht : md.timestamps with _ | ts
    · simp [ht] at h
    simp [apply_file_metadata, timeStep, ht]
  · intro h b
    have hb : ((modeStep env md).1 && (timeStep env md).1) = false := by
      rcases h with ⟨h1, h2⟩ | ⟨h1, h2⟩
      · rcases hm : md.mode with _ | m
        · simp [hm] at h1
        · simp [modeStep, hm, h2]
      · rcases ht : md.timestamps with _ | ts
        · simp [ht] at h1
        · simp [timeStep, ht, h2]
    have htr : (apply_file_metadata isWin env md).2
        = (modeStep env md).2 ++ (timeStep env md).2 := by
      simp [apply_file_metadata, hb, platStep_false]
    rw [htr]
    rcases hm : md.mode with _ | m <;> rcases ht : md.timestamps with _ | ts <;>
      simp [modeStep, timeStep, hm, ht]
  · intro h e he
    have hp : (platStep isWin env md ((modeStep env md).1 && (timeStep env md).1)).1
        = true := h
    have hb : ((modeStep env md).1 && (timeStep env md).1) = true := by
      by_contra hc
      rw [Bool.not_eq_true] at hc
      rw [hc, platStep_false] at hp
      simp at hp
    obtain ⟨hm1, ht1⟩ := Bool.and_eq_true_iff.mp hb
    have he2 : e ∈ (modeStep env md).2 ++ (timeStep env md).2
        ++ (platStep isWin env md ((modeStep env md).1 && (timeStep env md).1)).2 := he
    rcases List.mem_append.mp he2 with h12 | h3
    · rcases List.mem_append.mp h12 with h1 | h2
      · exact modeStep_ok env md hm1 e h1
      · exact timeStep_ok env md ht1 e h2
    · exact platStep_ok isWin env md _ hp e h3

/-- Helper: removing one path leaves lookups at other paths unchanged. -/
theorem fsLookup_fsRemove_ne (fs : FS) (p q : FPath) (h : q ≠ p) :
    fsLookup (fsRemove fs p) q = fsLookup fs q := by
  induction fs with
  | nil => rfl
  | cons a rest ih =>
    obtain ⟨r, e⟩ := a
    by_cases hr : r = p
    · subst hr
      have hq : ¬ r = q := fun hc => h (hc ▸ rfl)
      simp [fsRemove, fsLookup, hq, ih]
    · by_cases hq : r = q <;> simp [fsRemove, fsLookup, hr, hq, ih, h]

/-- Helper: lookup after a binding update. -/
theorem fsLookup_fsSet (fs : FS) (p : FPath) (e : Entry) (q : FPath) :
    fsLookup (fsSet fs p e) q = if p = q then some e else fsLookup fs q := by
  unfold fsSet
  by_cases hq : p = q
  · simp [fsLookup, hq]
  · have : q ≠ p := fun hc => hq (hc ▸ rfl)
    simp [fsLookup, hq, fsLookup_fsRemove_ne fs p q this]

/-- Helper: the directory-creating fold touches no path that already has an
entry. -/
theorem fsLookup_foldMk (l : List FPath) (fs : FS) (q : FPath)
    (h : fsExists fs q = true) :
    fsLookup (l.foldl (fun acc r => if fsExists acc r then acc else fsSet acc r .dir) fs) q
      = fsLookup fs q := by
  induction l generalizing fs with
  | nil => rfl
  | cons r rest ih =>
    simp only [List.foldl_cons]
    by_cases hr : fsExists fs r = true
    · rw [if_pos hr]
      exact ih fs h
    · rw [if_neg hr]
      have hq : ¬ r = q := by
        intro hc
        subst hc
        exact hr h
      have h2 : fsExists (fsSet fs r .dir) q = true := by
        unfold fsExists
        rw [fsLookup_fsSet, if_neg hq]
        exact h
      rw [ih (fsSet fs r .dir) h2, fsLookup_fsSet, if_neg hq]

/-- Helper: creating missing parent directories leaves existing entries
unchanged. -/
theorem fsLookup_fsMkParents (fs : FS) (p q : FPath) (h : fsExists fs q = true) :
    fsLookup (fsMkParents fs p) q = fsLookup fs q :=
  fsLookup_foldMk (parentsOf p) fs q h

/-- Helper: a regular file survives parent-directory creation. -/
theorem fsIsFile_fsMkParents (fs : FS) (p q : FPath) (h : fsIsFile fs q = true) :
    fsIsFile (fsMkParents fs p) q = true := by
  unfold fsIsFile at h ⊢
  rcases hl : fsLookup fs q with _ | e
  · rw [hl] at h
    simp at h
  · have he : fsExists fs q = true := by
      unfold fsExists
      rw [hl]
      rfl
    rw [fsLookup_fsMkParents fs p q he, hl]
    rw [hl] at h
    exact h

/-- Helper: a regular file survives writing a file entry anywhere. -/
theorem fsIsFile_fsSet_file (fs : FS) (p q : FPath) (c : Nat)
    (h : fsIsFile fs q = true) :
    fsIsFile (fsSet fs p (.file c)) q = true := by
  unfold fsIsFile at h ⊢
  rw [fsLookup_fsSet]
  by_cases hq : p = q <;> simp [hq]
  rcases hl : fsLookup fs q with _ | e
  · rw [hl] at h
    simp at h
  · rw [hl] at h
    exact h

/-- Helper: the Windows platform family emits only metadata-apply events. -/
theorem apply_windows_trace_meta (isWin : Bool) (env : ApplyEnv) (wm : WinMeta) :
    ∀ x ∈ (apply_windows_metadata isWin env wm).2, isMetaEv x = true := by
  intro x hx
  unfold apply_windows_metadata at hx
  by_cases hw : isWin <;> simp only [hw] at hx
  · by_cases hp : env.pywin32 <;>
      simp only [hp, if_true, if_false, ite_true, ite_false] at hx
    · rcases ha : wm.attributes with _ | a <;> simp only [ha] at hx
      · simp at hx
      · by_cases hs : env.setAttrsOk <;> simp [hs] at hx <;> simp [hx, isMetaEv]
    · rcases ha : wm.attribOutput with _ | s <;> simp only [ha] at hx
      · simp at hx
      · rcases hf : attribFlags s with _ | ⟨ch, cs⟩ <;> simp only [hf] at hx
        · simp at hx
        · by_cases hb : env.attribSpawnOk <;> simp [hb] at hx
          · rcases hx with hx | hx <;> simp [hx, isMetaEv]
          · simp [hx, isMetaEv]
  · simp at hx

/-- Helper: the POSIX platform family emits only metadata-apply events. -/
theorem apply_unix_trace_meta (isWin : Bool) (env : ApplyEnv) (um : Nat × Nat) :
    ∀ x ∈ (apply_unix_metadata isWin env um).2, isMetaEv x = true := by
  intro x hx
  unfold apply_unix_metadata at hx
  by_cases hw : isWin <;> simp only [hw] at hx
  · simp at hx
  · by_cases hc : env.chownOk <;> simp [hc] at hx <;> simp [hx, isMetaEv]

/-- Helper: `apply_file_metadata` emits only metadata-apply events. -/
theorem apply_trace_meta (isWin : Bool) (env : ApplyEnv) (md : Snapshot) :
    ∀ e ∈ (apply_file_metadata isWin env md).2, isMetaEv e = true := by
  intro e he
  have he2 : e ∈ (modeStep env md).2 ++ (timeStep env md).2
      ++ (platStep isWin env md ((modeStep env md).1 && (timeStep env md).1)).2 := he
  rcases List.mem_append.mp he2 with h12 | h3
  · rcases List.mem_append.mp h12 with h1 | h2
    · unfold modeStep at h1
      rcases hh : md.mode with _ | m <;> rw [hh] at h1 <;> simp at h1
      simp [h1, isMetaEv]
    · unfold timeStep at h2
      rcases hh : md.timestamps with _ | ts <;> rw [hh] at h2 <;> simp at h2
      simp [h2, isMetaEv]
  · unfold platStep at h3
    by_cases hw : isWin <;> simp only [hw, if_true, if_false, ite_true, ite_false] at h3
    · rcases hy : md.windows with _ | wm <;> rw [hy] at h3
      · simp at h3
      · rcases hs : ((modeStep env md).1 && (timeStep env md).1) with _ | _ <;>
          rw [hs] at h3 <;> simp at h3
        exact apply_windows_trace_meta isWin env wm e (by simp [hw]; exact h3)
    · rcases hy : md.unixMeta with _ | um <;> rw [hy] at h3
      · simp at h3
      · rcases hs : ((modeStep env md).1 && (timeStep env md).1) with _ | _ <;>
          rw [hs] at h3 <;> simp at h3
        exact apply_unix_trace_meta isWin env um e (by simp [hw]; exact h3)

/-- Helper: `copy_file` never invokes `os.unlink`. -/
theorem copy_trace_no_unlink (isWin : Bool) (env : CopyEnv) (fs : FS)
    (src dst : FPath) (preserve ow : Bool) (b : Bool) :
    Ev.unlink b ∉ (copy_file isWin env fs src dst preserve ow).2.2 := by
  intro hmem
  unfold copy_file at hmem
  split_ifs at hmem <;> simp at hmem <;>
    (try (have hmeta := apply_trace_meta isWin env.applyEnv
            (collect_file_metadata isWin env.collectEnv) _ hmem
          simp [isMetaEv] at hmeta))

/-- Helper: `copy_file` leaves the source a regular file. -/
theorem copy_file_preserves_src_isFile (isWin : Bool) (env : CopyEnv) (fs : FS)
    (src dst : FPath) (preserve ow : Bool) (h : fsIsFile fs src = true) :
    fsIsFile (copy_file isWin env fs src dst preserve ow).2.1 src = true := by
  unfold copy_file
  split_ifs <;>
    simp only [] <;>
    first
      | exact h
      | exact fsIsFile_fsSet_file _ _ _ _ (fsIsFile_fsMkParents fs dst src h)
      | exact fsIsFile_fsMkParents fs dst src h

/-- C2: for every `copy_file` or `move_file` call whose preconditions are
violated — missing source, source not a regular file, or existing
destination with `overwrite` false — the call returns a boolean failure,
raises nothing (no primitive is even invoked: the trace is empty), and
leaves the filesystem exactly as it was, so the destination content and the
source are unchanged and no parent directories are created. -/
theorem transfer_preconditions_side_effect_free (isWin : Bool) (cenv : CopyEnv)
    (menv : MoveEnv) (fs : FS) (src dst : FPath) (preserve ow : Bool)
    (h : fsExists fs src = false ∨ fsIsFile fs src = false
      ∨ (fsExists fs dst = true ∧ ow = false)) :
    copy_file isWin cenv fs src dst preserve ow = (false, fs, [])
    ∧ move_file isWin menv fs src dst preserve ow = (false, fs, []) := by
  rcases h with h | h | ⟨h1, h2⟩
  · constructor <;> simp [copy_file, move_file, h]
  · by_cases he : fsExists fs src = true <;>
      constructor <;> simp [copy_file, move_file, h, he]
  · by_cases he : fsExists fs src = true <;> by_cases hf : fsIsFile fs src = true <;>
      constructor <;> simp [copy_file, move_file, he, hf, h1, h2]

/-- Witness for `transfer_preconditions_side_effect_free`: existing
destination without overwrite. -/
theorem transfer_preconditions_side_effect_free_witness :
    copy_file false okCopyEnv
        [(["s"], Entry.file 7), (["d"], Entry.file 9)] ["s"] ["d"] true false
      = (false, [(["s"], Entry.file 7), (["d"], Entry.file 9)], [])
    ∧ move_file false okMoveEnv
        [(["s"], Entry.file 7), (["d"], Entry.file 9)] ["s"] ["d"] true false
      = (false, [(["s"], Entry.file 7), (["d"], Entry.file 9)], []) :=
  transfer_preconditions_side_effect_free false okCopyEnv okMoveEnv
    [(["s"], Entry.file 7), (["d"], Entry.file 9)] ["s"] ["d"] true false
    (Or.inr (Or.inr ⟨by decide, rfl⟩))

/-- C1: when `shutil.move` fails with `errno.EXDEV` (and the call reached
the move attempt), `move_file` falls back to copy-then-delete-source:
`os.unlink(source)` is invoked exactly when the fallback `copy_file`
returned success; if the copy fails, `move_file` returns failure, the state
is the state the failed copy left, and the source is still a regular
file. -/
theorem move_file_exdev_fallback (isWin : Bool) (env : MoveEnv) (fs : FS)
    (src dst : FPath) (preserve ow : Bool)
    (hex : env.moveRes = .exdev)
    (h1 : fsExists fs src = true) (h2 : fsIsFile fs src = true)
    (h3 : fsExists fs dst = false ∨ ow = true) (h4 : env.mkdirOk = true) :
    ((copy_file isWin env.copyEnv (fsMkParents fs dst) src dst preserve ow).1 = true →
        Ev.unlink env.unlinkOk ∈ (move_file isWin env fs src dst preserve ow).2.2)
    ∧ (∀ b : Bool, Ev.unlink b ∈ (move_file isWin env fs src dst preserve ow).2.2 →
        (copy_file isWin env.copyEnv (fsMkParents fs dst) src dst preserve ow).1 = true)
    ∧ ((copy_file isWin env.copyEnv (fsMkParents fs dst) src dst preserve ow).1 = false →
        (move_file isWin env fs src dst preserve ow).1 = false
        ∧ (move_file isWin env fs src dst preserve ow).2.1
            = (copy_file isWin env.copyEnv (fsMkParents fs dst) src dst preserve ow).2.1
        ∧ fsIsFile (move_file isWin env fs src dst preserve ow).2.1 src = true) := by
  have hc : (fsExists fs dst && !ow) = false := by
    rcases h3 with h3 | h3 <;> simp [h3]
  have hmv : move_file isWin env fs src dst preserve ow
      = (if (copy_file isWin env.copyEnv (fsMkParents fs dst) src dst preserve ow).1 then
          if env.unlinkOk then
            (true,
              fsRemove (copy_file isWin env.copyEnv (fsMkParents fs dst) src dst preserve ow).2.1 src,
              [Ev.mkdirp true, Ev.shmove .exdev]
                ++ (copy_file isWin env.copyEnv (fsMkParents fs dst) src dst preserve ow).2.2
                ++ [Ev.unlink true]
                ++ (if preserve then
                      (apply_file_metadata isWin env.applyEnv
                        (collect_file_metadata isWin env.collectEnv)).2
                    else []))
          else
            (false,
              (copy_file isWin env.copyEnv (fsMkParents fs dst) src dst preserve ow).2.1,
              [Ev.mkdirp true, Ev.shmove .exdev]
                ++ (copy_file isWin env.copyEnv (fsMkParents fs dst) src dst preserve ow).2.2
                ++ [Ev.unlink false])
         else
          (false,
            (copy_file isWin env.copyEnv (fsMkParents fs dst) src dst preserve ow).2.1,
            [Ev.mkdirp true, Ev.shmove .exdev]
              ++ (copy_file isWin env.copyEnv (fsMkParents fs dst) src dst preserve ow).2.2)) := by
    unfold move_file
    rw [hex]
    simp only [h1, h2, h4, hc, Bool.not_true, Bool.false_eq_true, not_false_eq_true,
      if_true, if_false, ite_true, ite_false, not_true_eq_false]
  rw [hmv]
  rcases hcr : (copy_file isWin env.copyEnv (fsMkParents fs dst) src dst preserve ow).1
  · refine ⟨?_, ?_, ?_⟩
    · intro hct
      exact absurd hct (by simp)
    · intro b hb
      rw [if_neg (by simp)] at hb
      simp at hb
      exact absurd hb
        (copy_trace_no_unlink isWin env.copyEnv (fsMkParents fs dst) src dst preserve ow b)
    · intro _
      rw [if_neg (by simp)]
      refine ⟨rfl, rfl, ?_⟩
      have hsrc : fsIsFile (fsMkParents fs dst) src = true :=
        fsIsFile_fsMkParents fs dst src h2
      exact copy_file_preserves_src_isFile isWin env.copyEnv
        (fsMkParents fs dst) src dst preserve ow hsrc
  · refine ⟨?_, ?_, ?_⟩
    · intro _
      rw [if_pos (by simp)]
      by_cases hu : env.unlinkOk <;> simp [hu]
    · intro b _
      rfl
    · intro hcf
      exact absurd hcf (by simp)

/-- Witness for `move_file_exdev_fallback`: EXDEV with a failing fallback
copy leaves the source file in place and returns failure. -/
theorem move_file_exdev_fallback_witness :
    (move_file false exdevMoveEnv [(["s"], Entry.file 7)] ["s"] ["d"] true false).1 = false
    ∧ fsIsFile (move_file false exdevMoveEnv [(["s"], Entry.file 7)] ["s"] ["d"] true false).2.1
        ["s"] = true := by
  have h := move_file_exdev_fallback false exdevMoveEnv [(["s"], Entry.file 7)]
    ["s"] ["d"] true false rfl (by decide) (by decide) (Or.inl (by decide)) rfl
  have h3 := h.2.2 (by decide)
  exact ⟨h3.1, h3.2.2⟩

/-- Witness for `apply_metadata_families`: chmod failing, timestamps still
applied, platform branch skipped. -/
theorem apply_metadata_families_witness :
    Ev.utime true ∈ (apply_file_metadata false envChmodFails mdAllPosix).2
    ∧ ∀ b : Bool, Ev.chown b ∉ (apply_file_metadata false envChmodFails mdAllPosix).2 := by
  have h := apply_metadata_families false envChmodFails mdAllPosix
  exact ⟨h.1 (by decide), fun b => (h.2.1 (Or.inl ⟨by decide, rfl⟩) b).1⟩

/-- Helper: the post-removal part of `create_symlink` keeps the removal
event at the head of its trace. -/
theorem createSymlinkTail_trace_head (isWin : Bool) (env : SymEnv) (fs : FS)
    (target link : FPath) (tid : Option Bool) (ev : Ev) :
    (createSymlinkTail isWin env fs target link tid [ev]).2.2.head? = some ev := by
  obtain ⟨rOk, mOk, nR, hR, kR⟩ := env
  unfold createSymlinkTail
  cases mOk <;> cases isWin <;> cases nR <;> cases hR <;> cases kR <;>
    simp [create_windows_symlink, mklinkStep]

/-- C5: when an object already exists at the link path, `create_symlink`
with `force=false` fails with no side effect and no primitive invoked; with
`force=true` the existing object is removed first — recursively when it is
a real directory, by a single unlink when it is a file or a symlink — a
removal failure is fatal with no link-creation attempt, and after a
successful removal (POSIX, working primitives) the link path holds a
symlink to the given target. -/
theorem create_symlink_preexisting (isWin : Bool) (env : SymEnv) (fs : FS)
    (target link : FPath) (tid : Option Bool) (h : fsExists fs link = true) :
    create_symlink isWin env fs target link false tid = (false, fs, [])
    ∧ (env.removeOk = false →
        create_symlink isWin env fs target link true tid
          = (false, fs, [if fsIsDir fs link then Ev.rmtree false else Ev.unlink false]))
    ∧ (env.removeOk = true →
        (create_symlink isWin env fs target link true tid).2.2.head?
          = some (if fsIsDir fs link then Ev.rmtree true else Ev.unlink true))
    ∧ (env.removeOk = true → env.mkdirOk = true → isWin = false →
        env.nativeRes = .ok →
        (create_symlink isWin env fs target link true tid).1 = true
        ∧ fsLookup (create_symlink isWin env fs target link true tid).2.1 link
            = some (.symlink target)) := by
  refine ⟨?_, ?_, ?_, ?_⟩
  · simp [create_symlink, h]
  · intro hr
    simp [create_symlink, h, hr]
  · intro hr
    simp only [create_symlink, h, hr, if_true, ite_true, Bool.not_true,
      not_false_eq_true, if_false, ite_false, not_true_eq_false]
    exact createSymlinkTail_trace_head isWin env (fsRemove fs link) target link tid _
  · intro hr hm hw hn
    subst hw
    simp only [create_symlink, h, hr, if_true, ite_true, Bool.not_true,
      not_false_eq_true, if_false, ite_false, not_true_eq_false]
    unfold createSymlinkTail
    simp only [hm, hn, Bool.not_true, Bool.not_false, not_false_eq_true,
      not_true_eq_false, if_true, if_false, ite_true, ite_false]
    simp [fsLookup_fsSet]

/-- Witness for `create_symlink_preexisting`: a regular file at the link
path, `force=false`. -/
theorem create_symlink_preexisting_witness :
    create_symlink false
        { removeOk := true, mkdirOk := true, nativeRes := .ok,
          helper := .absent, mklink := .ok }
        [(["l"], Entry.file 3)] ["t"] ["l"] false none
      = (false, [(["l"], Entry.file 3)], []) :=
  (create_symlink_preexisting false
    { removeOk := true, mkdirOk := true, nativeRes := .ok,
      helper := .absent, mklink := .ok }
    [(["l"], Entry.file 3)] ["t"] ["l"] none (by decide)).1

/-- C6: on Windows the symlink chain tries at most the native primitive,
then the helper library, then `mklink`, in this fixed order with no retry
(the attempt indices of the trace form a sublist of `[0, 1, 2]`); a
successful native primitive short-circuits; an absent helper is silently
skipped (no helper call is made) rather than failing the call; the call
fails exactly when none of the three steps succeeded, and the single
remedies-enumerating failure notice appears exactly in that case.  On POSIX
`create_symlink` uses the native primitive unconditionally and returns its
result immediately, with no helper or `mklink` attempt. -/
theorem create_symlink_strategy_chain (env : SymEnv) (fs : FS)
    (target link : FPath) (isDir : Bool) (force : Bool) (tid : Option Bool) :
    List.Sublist
        ((create_windows_symlink env fs target link isDir).2.2.filterMap evAttempt)
        [0, 1, 2]
    ∧ (env.nativeRes = .ok →
        create_windows_symlink env fs target link isDir
          = (true, fsSet fs link (.symlink target), [Ev.nativeTry .ok]))
    ∧ (env.helper = .absent →
        (∀ r, Ev.helperTry r ∉ (create_windows_symlink env fs target link isDir).2.2)
        ∧ (env.nativeRes ≠ .ok →
            Ev.helperSkipAbsent ∈ (create_windows_symlink env fs target link isDir).2.2))
    ∧ ((create_windows_symlink env fs target link isDir).1 = false ↔
        (env.nativeRes ≠ .ok ∧ env.helper ≠ .ok ∧ env.mklink ≠ .ok))
    ∧ (Ev.winFailNotice ∈ (create_windows_symlink env fs target link isDir).2.2 ↔
        (create_windows_symlink env fs target link isDir).1 = false)
    ∧ (fsExists fs link = false → env.mkdirOk = true →
        (create_symlink false env fs target link force tid).1
            = decide (env.nativeRes = .ok)
        ∧ (create_symlink false env fs target link force tid).2.2.filterMap evAttempt
            = [0]) := by
  obtain ⟨rOk, mOk, nR, hR, kR⟩ := env
  refine ⟨?_, ?_, ?_, ?_, ?_, ?_⟩
  · cases nR <;> cases hR <;> cases kR <;>
      simp only [create_windows_symlink, mklinkStep, List.filterMap_cons,
        List.filterMap_nil, evAttempt] <;> decide
  · intro hn
    cases hn
    simp [create_windows_symlink]
  · intro hh
    cases hh
    constructor
    · intro r
      cases nR <;> cases kR <;> simp [create_windows_symlink, mklinkStep]
    · intro hn
      cases nR <;> cases kR <;>
        first
          | exact absurd rfl hn
          | simp [create_windows_symlink, mklinkStep]
  · cases nR <;> cases hR <;> cases kR <;> simp [create_windows_symlink, mklinkStep]
  · cases nR <;> cases hR <;> cases kR <;> simp [create_windows_symlink, mklinkStep]
  · intro he hm
    cases hm
    simp only [create_symlink, he, Bool.false_eq_true, if_false, ite_false]
    unfold createSymlinkTail
    simp only [Bool.not_true, Bool.not_false, not_false_eq_true, not_true_eq_false,
      if_true, if_false, ite_true, ite_false]
    cases nR <;> simp [evAttempt]

/-- Witness for `create_symlink_strategy_chain`: native primitive lacking
privilege, helper absent; on Windows the chain reaches `mklink`, on POSIX
the call fails immediately. -/
theorem create_symlink_strategy_chain_witness :
    (∀ r, Ev.helperTry r ∉
        (create_windows_symlink
          { removeOk := true, mkdirOk := true, nativeRes := .privErr,
            helper := .absent, mklink := .ok }
          [] ["t"] ["l"] false).2.2)
    ∧ (create_symlink false
        { removeOk := true, mkdirOk := true, nativeRes := .privErr,
          helper := .absent, mklink := .ok }
        [] ["t"] ["l"] false none).1 = false := by
  have h := create_symlink_strategy_chain
    { removeOk := true, mkdirOk := true, nativeRes := .privErr,
      helper := .absent, mklink := .ok }
    [] ["t"] ["l"] false false none
  refine ⟨(h.2.2.1 rfl).1, ?_⟩
  rw [(h.2.2.2.2.2 (by decide) rfl).1]
  decide

/-- C8: `check_disk_space` returns the rich insufficient-space error exactly
when the caller opts in with `raise_on_insufficient` and the free space is
below `required_bytes + int(required_bytes * safety_margin)`; the raised
error carries `required` (with margin), `available`, and
`shortfall = required - available`; without the opt-in every outcome —
insufficiency and an unusable destination included — is a boolean plus a
message, with no exception escaping. -/
theorem check_disk_space_strict_error (usage : Option DiskUsageT)
    (requiredBytes : Int) (safetyMargin : ℚ) (raiseOn : Bool) :
    isInsufficientErr (check_disk_space usage requiredBytes safetyMargin raiseOn)
      = (raiseOn && insufficientCond usage requiredBytes safetyMargin)
    ∧ (∀ u, usage = some u → raiseOn = true →
        u.free < requiredBytes + intTrunc ((requiredBytes : ℚ) * safetyMargin) →
        check_disk_space usage requiredBytes safetyMargin raiseOn
          = .error (.insufficient
              (requiredBytes + intTrunc ((requiredBytes : ℚ) * safetyMargin))
              u.free
              (requiredBytes + intTrunc ((requiredBytes : ℚ) * safetyMargin) - u.free)
              "Insufficient space"))
    ∧ (raiseOn = false →
        isOkResult (check_disk_space usage requiredBytes safetyMargin raiseOn) = true) := by
  refine ⟨?_, ?_, ?_⟩
  · rcases usage with _ | u
    · cases raiseOn <;> simp [check_disk_space, insufficientCond, isInsufficientErr]
    · by_cases hge : u.free ≥ requiredBytes + intTrunc ((requiredBytes : ℚ) * safetyMargin)
      · have hlt : ¬ u.free < requiredBytes + intTrunc ((requiredBytes : ℚ) * safetyMargin) :=
          not_lt.mpr hge
        cases raiseOn <;>
          simp [check_disk_space, insufficientCond, isInsufficientErr, hge, hlt]
      · have hlt : u.free < requiredBytes + intTrunc ((requiredBytes : ℚ) * safetyMargin) :=
          lt_of_not_ge hge
        cases raiseOn <;>
          simp [check_disk_space, insufficientCond, isInsufficientErr, hge, hlt]
  · intro u hu hr hlt
    subst hu
    have hge : ¬ u.free ≥ requiredBytes + intTrunc ((requiredBytes : ℚ) * safetyMargin) :=
      not_le.mpr hlt
    simp [check_disk_space, hr, hge]
  · intro hr
    rcases usage with _ | u
    · simp [check_disk_space, hr, isOkResult]
    · by_cases hge : u.free ≥ requiredBytes + intTrunc ((requiredBytes : ℚ) * safetyMargin) <;>
        simp [check_disk_space, hr, hge, isOkResult]

/-- Witness for `check_disk_space_strict_error`: 10 bytes free against 100
required with a 10 percent margin, strict mode. -/
theorem check_disk_space_strict_error_witness :
    check_disk_space (some { total := 100, used := 90, free := 10 }) 100 (1 / 10) true
      = .error (.insufficient 110 10 100 "Insufficient space") := by
  have h := (check_disk_space_strict_error
    (some { total := 100, used := 90, free := 10 }) 100 (1 / 10) true).2.1
    { total := 100, used := 90, free := 10 } rfl rfl (by norm_num [intTrunc])
  rw [h]
  norm_num [intTrunc]

/-- Helper: each batch iteration appends exactly one entry, keyed by the
processed source. -/
theorem copyBatchStep_appends (isWin : Bool) (cenv : CopyEnv)
    (cdp : FPath → Option FPath) (preserve ow : Bool)
    (acc : List (FPath × (Bool × FPath)) × FS) (src : FPath) :
    ∃ x, (copyBatchStep isWin cenv cdp preserve ow acc src).1 = acc.1 ++ [(src, x)] := by
  unfold copyBatchStep
  split
  · exact ⟨(false, src), rfl⟩
  · rcases hc : cdp src with _ | dst
    · exact ⟨(false, src), rfl⟩
    · exact ⟨((copy_file isWin cenv acc.2 src dst preserve ow).1, dst), rfl⟩

/-- Helper: keys present in the accumulator survive the rest of the
batch. -/
theorem copyBatchGo_preserves_keys (isWin : Bool) (envs : Nat → CopyEnv)
    (cdp : FPath → Option FPath) (preserve ow : Bool) (l : List FPath) (i : Nat)
    (acc : List (FPath × (Bool × FPath)) × FS) (p : FPath)
    (h : containsKey acc.1 p = true) :
    containsKey (copyBatchGo isWin envs cdp preserve ow i l acc).1 p = true := by
  induction l generalizing i acc with
  | nil => exact h
  | cons src rest ih =>
    simp only [copyBatchGo]
    apply ih
    obtain ⟨x, hx⟩ := copyBatchStep_appends isWin (envs i) cdp preserve ow acc src
    rw [hx]
    unfold containsKey at h ⊢
    simp only [List.any_append, h, Bool.true_or]

/-- Helper: the batch records an outcome for every source it processes. -/
theorem copyBatchGo_records_all (isWin : Bool) (envs : Nat → CopyEnv)
    (cdp : FPath → Option FPath) (preserve ow : Bool) (l : List FPath) (i : Nat)
    (acc : List (FPath × (Bool × FPath)) × FS) :
    ∀ src ∈ l, containsKey (copyBatchGo isWin envs cdp preserve ow i l acc).1 src = true := by
  induction l generalizing i acc with
  | nil => intro src hs; simp at hs
  | cons hd rest ih =>
    intro src hs
    rcases List.mem_cons.mp hs with hs | hs
    · subst hs
      simp only [copyBatchGo]
      apply copyBatchGo_preserves_keys
      obtain ⟨x, hx⟩ := copyBatchStep_appends isWin (envs i) cdp preserve ow acc src
      rw [hx]
      unfold containsKey
      simp
    · simp only [copyBatchGo]
      exact ih (i + 1) (copyBatchStep isWin (envs i) cdp preserve ow acc hd) src hs

/-- C9: `copy_files_with_path` computes each file's outcome independently:
a source that does not exist or is not a regular file at its turn is
recorded as `(False, source_path)` with the filesystem untouched by that
iteration, the batch continues with the remaining files, and the returned
map holds an outcome for every input source path. -/
theorem copy_files_with_path_outcomes (isWin : Bool) (env : BatchEnv)
    (cdp : FPath → Option FPath) (fs : FS) (sources : List FPath)
    (destBase : FPath) (preserve ow : Bool) (hm : env.mkdirBaseOk = true) :
    (∀ src ∈ sources, ∀ r,
        copy_files_with_path isWin env cdp fs sources destBase preserve ow = .ok r →
        containsKey r.1 src = true)
    ∧ (∀ cenv acc src, (fsExists acc.2 src && fsIsFile acc.2 src) = false →
        copyBatchStep isWin cenv cdp preserve ow acc src
          = (acc.1 ++ [(src, (false, src))], acc.2)) := by
  constructor
  · intro src hs r hr
    unfold copy_files_with_path at hr
    rw [hm] at hr
    simp only [Bool.not_true, not_true_eq_false, if_false, ite_false,
      Except.ok.injEq] at hr
    rw [← hr]
    exact copyBatchGo_records_all isWin env.perFile cdp preserve ow sources 0
      ([], fsMkdirAll fs destBase) src hs
  · intro cenv acc src hmiss
    unfold copyBatchStep
    rw [if_pos (by simp [hmiss])]

/-- Witness for `copy_files_with_path_outcomes`: a two-file batch whose
second source is missing still records an outcome for it, and the missing
source's iteration leaves the state untouched. -/
theorem copy_files_with_path_outcomes_witness :
    containsKey
        (copyBatchGo false (fun _ => okCopyEnv) batchCdp true false 0
          [["a"], ["x"]] ([], fsMkdirAll batchFS ["o"])).1 ["x"] = true
    ∧ copyBatchStep false okCopyEnv batchCdp true false ([], batchFS) ["x"]
        = ([(["x"], (false, ["x"]))], batchFS) := by
  have h := copy_files_with_path_outcomes false
    { mkdirBaseOk := true, perFile := fun _ => okCopyEnv }
    batchCdp batchFS [["a"], ["x"]] ["o"] true false rfl
  exact ⟨h.1 ["x"] (by simp) _ rfl, h.2 okCopyEnv ([], batchFS) ["x"] (by decide)⟩

/-- Helper: a recognized drive character is in the drive list. -/
theorem isDriveChar_mem (c : Char) (h : isDriveChar c = true) : c ∈ driveChars :=
  of_decide_eq_true h

/-- Helper: uppercasing a drive letter yields a drive letter that is its own
uppercase and is none of the separator or colon characters. -/
theorem upChar_facts : ∀ c ∈ driveChars,
    isDriveChar (upChar c) = true ∧ upChar (upChar c) = upChar c
    ∧ upChar c ≠ '/' ∧ upChar c ≠ '\\' ∧ upChar c ≠ ':' := by decide

/-- Helper: lowercasing a drive letter yields neither a colon nor a
backslash. -/
theorem lowChar_facts : ∀ c ∈ driveChars,
    lowChar c ≠ ':' ∧ lowChar c ≠ '\\' := by decide

/-- Helper: slash rewriting never produces a backslash. -/
theorem slashOf_ne_bs (c : Char) : slashOf c ≠ '\\' := by
  unfold slashOf
  by_cases h : c = '\\' <;> simp [h]

/-- Helper: slash rewriting fixes everything but the backslash. -/
theorem slashOf_eq_self (c : Char) (h : c ≠ '\\') : slashOf c = c := by
  simp [slashOf, h]

/-- Helper: slash rewriting is idempotent pointwise. -/
theorem slashOf_slashOf (c : Char) : slashOf (slashOf c) = slashOf c :=
  slashOf_eq_self _ (slashOf_ne_bs c)

/-- Helper: slash rewriting absorbs a preceding backslash rewriting. -/
theorem slashOf_backOf (c : Char) : slashOf (backOf c) = slashOf c := by
  unfold slashOf backOf
  by_cases h1 : c = '/' <;> by_cases h2 : c = '\\' <;> simp [h1, h2]

/-- Helper: backslash rewriting is idempotent pointwise. -/
theorem backOf_backOf (c : Char) : backOf (backOf c) = backOf c := by
  unfold backOf
  by_cases h : c = '/' <;> simp [h]

/-- Helper: a map whose function fixes every member fixes the list. -/
theorem mapFixChar (f : Char → Char) (l : List Char) (h : ∀ c ∈ l, f c = c) :
    l.map f = l := by
  induction l with
  | nil => rfl
  | cons c cs ih =>
    simp only [List.map_cons, h c (by simp)]
    rw [ih (fun x hx => h x (by simp [hx]))]

/-- Helper: slash rewriting after backslash rewriting equals slash
rewriting. -/
theorem toSlashC_toBackC (l : List Char) : toSlashC (toBackC l) = toSlashC l := by
  unfold toSlashC toBackC
  rw [List.map_map]
  induction l with
  | nil => rfl
  | cons c cs ih => simp only [List.map_cons, Function.comp, slashOf_backOf, ih]

/-- Helper: slash rewriting is idempotent. -/
theorem toSlashC_toSlashC (l : List Char) : toSlashC (toSlashC l) = toSlashC l := by
  unfold toSlashC
  rw [List.map_map]
  induction l with
  | nil => rfl
  | cons c cs ih => simp only [List.map_cons, Function.comp, slashOf_slashOf, ih]

/-- Helper: backslash rewriting is idempotent. -/
theorem toBackC_toBackC (l : List Char) : toBackC (toBackC l) = toBackC l := by
  unfold toBackC
  rw [List.map_map]
  induction l with
  | nil => rfl
  | cons c cs ih => simp only [List.map_cons, Function.comp, backOf_backOf, ih]

/-- Helper: a slash-rewritten list holds no backslash. -/
theorem toSlashC_no_bs (l : List Char) : ∀ c ∈ toSlashC l, c ≠ '\\' := by
  intro c hc
  unfold toSlashC at hc
  obtain ⟨a, _, ha⟩ := List.mem_map.mp hc
  rw [← ha]
  exact slashOf_ne_bs a

/-- Helper: slash rewriting fixes a backslash-free list. -/
theorem toSlashC_of_no_bs (l : List Char) (h : ∀ c ∈ l, c ≠ '\\') :
    toSlashC l = l :=
  mapFixChar slashOf l (fun c hc => slashOf_eq_self c (h c hc))

/-- Helper: splitting never yields the empty list of segments. -/
theorem splitSlash_ne_nil (l : List Char) : splitSlash l ≠ [] := by
  induction l with
  | nil => simp [splitSlash]
  | cons c cs ih =>
    by_cases hc : c = '/'
    · simp [splitSlash, hc]
    · simp only [splitSlash, hc, if_false, ite_false]
      rcases h : splitSlash cs with _ | ⟨s, ss⟩
      · exact absurd h ih
      · simp

/-- Helper: no segment of a split holds a forward slash. -/
theorem splitSlash_no_slash (l : List Char) :
    ∀ s ∈ splitSlash l, ∀ c ∈ s, c ≠ '/' := by
  induction l with
  | nil =>
    intro s hs
    simp [splitSlash] at hs
    subst hs
    simp
  | cons a as ih =>
    intro s hs c hc
    by_cases ha : a = '/'
    · simp only [splitSlash, ha, if_true, ite_true] at hs
      rcases List.mem_cons.mp hs with hs | hs
      · subst hs; simp at hc
      · exact ih s hs c hc
    · simp only [splitSlash, ha, if_false, ite_false] at hs
      rcases hsp : splitSlash as with _ | ⟨s0, ss0⟩
      · exact absurd hsp (splitSlash_ne_nil as)
      · rw [hsp] at hs
        rcases List.mem_cons.mp hs with hs | hs
        · subst hs
          rcases List.mem_cons.mp hc with hc | hc
          · subst hc; exact ha
          · exact ih s0 (by rw [hsp]; simp) c hc
        · exact ih s (by rw [hsp]; simp [hs]) c hc

/-- Helper: every character of a split segment comes from the input. -/
theorem splitSlash_chars (l : List Char) :
    ∀ s ∈ splitSlash l, ∀ c ∈ s, c ∈ l := by
  induction l with
  | nil =>
    intro s hs
    simp [splitSlash] at hs
    subst hs
    simp
  | cons a as ih =>
    intro s hs c hc
    by_cases ha : a = '/'
    · simp only [splitSlash, ha, if_true, ite_true] at hs
      rcases List.mem_cons.mp hs with hs | hs
      · subst hs; simp at hc
      · exact List.mem_cons_of_mem a (ih s hs c hc)
    · simp only [splitSlash, ha, if_false, ite_false] at hs
      rcases hsp : splitSlash as with _ | ⟨s0, ss0⟩
      · exact absurd hsp (splitSlash_ne_nil as)
      · rw [hsp] at hs
        rcases List.mem_cons.mp hs with hs | hs
        · subst hs
          rcases List.mem_cons.mp hc with hc | hc
          · subst hc; simp
          · exact List.mem_cons_of_mem a (ih s0 (by rw [hsp]; simp) c hc)
        · exact List.mem_cons_of_mem a (ih s (by rw [hsp]; simp [hs]) c hc)

/-- Helper: a slash-free list splits to itself as the single segment. -/
theorem splitSlash_of_no_slash (l : List Char) (h : ∀ c ∈ l, c ≠ '/') :
    splitSlash l = [l] := by
  induction l with
  | nil => rfl
  | cons c cs ih =>
    have hc : c ≠ '/' := h c (by simp)
    simp only [splitSlash, hc, if_false, ite_false]
    rw [ih (fun x hx => h x (by simp [hx]))]

/-- Helper: splitting distributes over a slash-free prefix and a separator. -/
theorem splitSlash_append (s rest : List Char) (h : ∀ c ∈ s, c ≠ '/') :
    splitSlash (s ++ '/' :: rest) = s :: splitSlash rest := by
  induction s with
  | nil => simp [splitSlash]
  | cons c cs ih =>
    have hc : c ≠ '/' := h c (by simp)
    have ih2 := ih (fun x hx => h x (by simp [hx]))
    simp only [List.cons_append, splitSlash, hc, if_false, ite_false, List.append_eq]
    rw [ih2]

/-- Helper: splitting inverts joining for slash-free segments. -/
theorem splitSlash_joinWith (ss : List (List Char))
    (h : ∀ s ∈ ss, ∀ c ∈ s, c ≠ '/') (hne : ss ≠ []) :
    splitSlash (joinWith '/' ss) = ss := by
  induction ss with
  | nil => exact absurd rfl hne
  | cons s rest ih =>
    rcases rest with _ | ⟨s2, rest2⟩
    · simp only [joinWith]
      exact splitSlash_of_no_slash s (h s (by simp))
    · show splitSlash (s ++ '/' :: joinWith '/' (s2 :: rest2)) = s :: s2 :: rest2
      rw [splitSlash_append s _ (h s (by simp))]
      rw [ih (fun x hx c hc => h x (List.mem_cons_of_mem s hx) c hc) (by simp)]

/-- Helper: slash rewriting turns a backslash-joined list of clean segments
into the slash-joined list. -/
theorem toSlashC_joinWith_bs (ss : List (List Char))
    (h : ∀ s ∈ ss, ∀ c ∈ s, c ≠ '\\') :
    toSlashC (joinWith '\\' ss) = joinWith '/' ss := by
  induction ss with
  | nil => rfl
  | cons s rest ih =>
    rcases rest with _ | ⟨s2, rest2⟩
    · show toSlashC s = s
      exact toSlashC_of_no_bs s (h s (by simp))
    · show toSlashC (s ++ '\\' :: joinWith '\\' (s2 :: rest2))
        = s ++ '/' :: joinWith '/' (s2 :: rest2)
      unfold toSlashC
      rw [List.map_append, List.map_cons]
      have hs := toSlashC_of_no_bs s (h s (by simp))
      unfold toSlashC at hs
      rw [hs]
      have hb : slashOf '\\' = '/' := by decide
      rw [hb]
      have hrest := ih (fun x hx c hc => h x (List.mem_cons_of_mem s hx) c hc)
      unfold toSlashC at hrest
      rw [hrest]

/-- Helper: inversion of drive recognition — the letter passed the drive
test, and the remaining segments come from the input. -/
theorem parseDrive_inv (segs : List (List Char)) (d : Char) (rest : List (List Char))
    (h : parseDrive segs = some (d, rest)) :
    isDriveChar d = true ∧ ∀ s ∈ rest, s ∈ segs := by
  unfold parseDrive at h
  split at h
  · split at h
    · split at h
      · split at h
        · rename_i hguard
          simp only [Option.some.injEq, Prod.mk.injEq] at h
          obtain ⟨rfl, rfl⟩ := h
          refine ⟨hguard, fun s hs => ?_⟩
          exact List.mem_cons_of_mem _ (List.mem_cons_of_mem _ (List.mem_cons_of_mem _ hs))
        · exact absurd h (by simp)
      · exact absurd h (by simp)
    · split at h
      · rename_i hguard
        simp only [Option.some.injEq, Prod.mk.injEq] at h
        obtain ⟨rfl, rfl⟩ := h
        refine ⟨hguard, fun s hs => ?_⟩
        exact List.mem_cons_of_mem _ (List.mem_cons_of_mem _ hs)
      · exact absurd h (by simp)
    · exact absurd h (by simp)
  · split at h
    · split at h
      · rename_i hguard
        simp only [Option.some.injEq, Prod.mk.injEq] at h
        obtain ⟨rfl, rfl⟩ := h
        exact ⟨hguard.2, fun s hs => List.mem_cons_of_mem _ hs⟩
      · exact absurd h (by simp)
    · exact absurd h (by simp)
  · exact absurd h (by simp)

/-- Helper: a leading `X:` segment with a drive letter is recognized. -/
theorem parseDrive_colon (d : Char) (rest : List (List Char))
    (hd : isDriveChar d = true) :
    parseDrive ([d, ':'] :: rest) = some (d, rest) := by
  unfold parseDrive
  simp [hd]

/-- Helper: normalization toward Windows never yields the empty string. -/
theorem normWinChars_ne_nil (l : List Char) (h : l ≠ []) : normWinChars l ≠ [] := by
  unfold normWinChars
  rcases hp : parseDrive (splitSlash (toSlashC l)) with _ | ⟨d, rest⟩
  · simp [toBackC, List.map_eq_nil, h]
  · simp [renderWin]

/-- Helper: normalization toward POSIX never yields the empty string. -/
theorem normPosixChars_ne_nil (l : List Char) (h : l ≠ []) : normPosixChars l ≠ [] := by
  unfold normPosixChars
  split
  · split <;> simp [toSlashC, List.map_eq_nil, h]
  · simp [toSlashC, List.map_eq_nil, h]

/-- Helper: normalization toward Windows is idempotent. -/
theorem normWinChars_idem (l : List Char) :
    normWinChars (normWinChars l) = normWinChars l := by
  rcases hp : parseDrive (splitSlash (toSlashC l)) with _ | ⟨d, rest⟩
  · have h1 : normWinChars l = toBackC l := by
      unfold normWinChars
      rw [hp]
    rw [h1]
    unfold normWinChars
    rw [toSlashC_toBackC, hp, toBackC_toBackC]
  · have h1 : normWinChars l = renderWin d rest := by
      unfold normWinChars
      rw [hp]
    obtain ⟨hd, hrest⟩ := parseDrive_inv _ _ _ hp
    have hdm : d ∈ driveChars := isDriveChar_mem d hd
    obtain ⟨hu1, hu2, hu3, hu4, hu5⟩ := upChar_facts d hdm
    have hcolon_ns : (':' : Char) ≠ '/' := by decide
    have hcolon_nb : (':' : Char) ≠ '\\' := by decide
    have hrs : ∀ s ∈ rest, (∀ c ∈ s, c ≠ '/') ∧ (∀ c ∈ s, c ≠ '\\') := by
      intro s hs
      refine ⟨fun c hc => splitSlash_no_slash _ s (hrest s hs) c hc, fun c hc => ?_⟩
      exact toSlashC_no_bs l c (splitSlash_chars _ s (hrest s hs) c hc)
    rcases hr' : rest.filter (fun s => !s.isEmpty) with _ | ⟨s0, ss0⟩
    · have hr : renderWin d rest = [upChar d, ':'] := by
        simp [renderWin, hr', renderTail]
      rw [h1, hr]
      unfold normWinChars
      have hts : toSlashC [upChar d, ':'] = [upChar d, ':'] := by
        apply toSlashC_of_no_bs
        intro c hc
        simp at hc
        rcases hc with rfl | rfl
        · exact hu4
        · exact hcolon_nb
      rw [hts]
      have hsp : splitSlash [upChar d, ':'] = [[upChar d, ':']] := by
        apply splitSlash_of_no_slash
        intro c hc
        simp at hc
        rcases hc with rfl | rfl
        · exact hu3
        · exact hcolon_ns
      rw [hsp]
      rw [parseDrive_colon (upChar d) [] hu1]
      simp [renderWin, renderTail, hu2]
    · have hsub : ∀ s ∈ s0 :: ss0, s ∈ rest := by
        intro s hs
        have : s ∈ rest.filter (fun s => !s.isEmpty) := by rw [hr']; exact hs
        exact (List.mem_filter.mp this).1
      have hns : ∀ s ∈ s0 :: ss0, ∀ c ∈ s, c ≠ '\\' :=
        fun s hs c hc => (hrs s (hsub s hs)).2 c hc
      have hnsl : ∀ s ∈ s0 :: ss0, ∀ c ∈ s, c ≠ '/' :=
        fun s hs c hc => (hrs s (hsub s hs)).1 c hc
      have hrl : renderWin d rest = upChar d :: ':' :: '\\' :: joinWith '\\' (s0 :: ss0) := by
        simp [renderWin, hr', renderTail]
      rw [h1, hrl]
      unfold normWinChars
      have hts : toSlashC (upChar d :: ':' :: '\\' :: joinWith '\\' (s0 :: ss0))
          = upChar d :: ':' :: '/' :: joinWith '/' (s0 :: ss0) := by
        unfold toSlashC
        simp only [List.map_cons]
        rw [slashOf_eq_self _ hu4, slashOf_eq_self ':' hcolon_nb]
        have hbs : slashOf '\\' = '/' := by decide
        rw [hbs]
        have hj := toSlashC_joinWith_bs (s0 :: ss0) hns
        unfold toSlashC at hj
        rw [hj]
      rw [hts]
      have hsp : splitSlash (upChar d :: ':' :: '/' :: joinWith '/' (s0 :: ss0))
          = [upChar d, ':'] :: s0 :: ss0 := by
        have heq : upChar d :: ':' :: '/' :: joinWith '/' (s0 :: ss0)
            = [upChar d, ':'] ++ '/' :: joinWith '/' (s0 :: ss0) := rfl
        rw [heq]
        rw [splitSlash_append _ _ (by
          intro c hc
          simp at hc
          rcases hc with rfl | rfl
          · exact hu3
          · exact hcolon_ns)]
        rw [splitSlash_joinWith (s0 :: ss0) hnsl (by simp)]
      rw [hsp, parseDrive_colon (upChar d) (s0 :: ss0) hu1]
      have hfix2 : (s0 :: ss0).filter (fun s => !s.isEmpty) = s0 :: ss0 := by
        rw [List.filter_eq_self]
        intro s hs
        have : s ∈ rest.filter (fun s => !s.isEmpty) := by rw [hr']; exact hs
        exact (List.mem_filter.mp this).2
      simp [renderWin, hfix2, renderTail, hu2]

/-- Helper: computation of the POSIX rewrite on a recognized drive prefix. -/
theorem normPosixChars_eq_drive (l : List Char) (d : Char) (rest : List Char)
    (heq : toSlashC l = d :: ':' :: rest) (hd : isDriveChar d = true) :
    normPosixChars l = '/' :: lowChar d :: rest := by
  unfold normPosixChars
  rw [heq]
  simp [hd]

/-- Helper: computation of the POSIX pass-through on anything else. -/
theorem normPosixChars_eq_pass (l : List Char)
    (h : ∀ d rest, toSlashC l = d :: ':' :: rest → ¬ isDriveChar d = true) :
    normPosixChars l = toSlashC l := by
  unfold normPosixChars
  split
  · rename_i d rest heq
    rw [if_neg (h d rest heq)]
  · rfl

/-- Helper: a backslash-free list without a recognized drive prefix is a
fixed point of the POSIX normalization. -/
theorem normPosix_fix (m : List Char) (hm : ∀ c ∈ m, c ≠ '\\')
    (hsh : ∀ d rest, m = d :: ':' :: rest → ¬ isDriveChar d = true) :
    normPosixChars m = m := by
  have h1 : toSlashC m = m := toSlashC_of_no_bs m hm
  have h2 := normPosixChars_eq_pass m (fun d rest heq => hsh d rest (h1.symm.trans heq))
  rw [h2, h1]

/-- Helper: normalization toward POSIX is idempotent. -/
theorem normPosixChars_idem (l : List Char) :
    normPosixChars (normPosixChars l) = normPosixChars l := by
  by_cases hex : ∃ d rest, toSlashC l = d :: ':' :: rest ∧ isDriveChar d = true
  · obtain ⟨d, rest, heq, hd⟩ := hex
    rw [normPosixChars_eq_drive l d rest heq hd]
    have hdm := isDriveChar_mem d hd
    obtain ⟨hl1, hl2⟩ := lowChar_facts d hdm
    apply normPosix_fix
    · intro c hc
      rcases List.mem_cons.mp hc with rfl | hc
      · decide
      rcases List.mem_cons.mp hc with rfl | hc
      · exact hl2
      · apply toSlashC_no_bs l
        rw [heq]
        simp [hc]
    · intro d0 rest0 heq0
      injection heq0 with h0 htail
      injection htail with h1 _
      exact absurd h1 hl1
  · have hA : ∀ d rest, toSlashC l = d :: ':' :: rest → ¬ isDriveChar d = true :=
      fun d rest heq hd => hex ⟨d, rest, heq, hd⟩
    rw [normPosixChars_eq_pass l hA]
    apply normPosix_fix
    · exact toSlashC_no_bs l
    · exact hA

/-- Helper: the character-list normalizer is idempotent for both targets. -/
theorem normChars_idem (plat : Platform) (l : List Char) :
    normChars plat (normChars plat l) = normChars plat l := by
  by_cases hl : l = []
  · subst hl
    cases plat <;> decide
  · cases plat
    · have h1 : normChars .windows l = normWinChars l := by simp [normChars, hl]
      rw [h1]
      have h2 : normWinChars l ≠ [] := normWinChars_ne_nil l hl
      have h3 : normChars .windows (normWinChars l) = normWinChars (normWinChars l) := by
        simp [normChars, h2]
      rw [h3, normWinChars_idem l]
    · have h1 : normChars .posix l = normPosixChars l := by simp [normChars, hl]
      rw [h1]
      have h2 : normPosixChars l ≠ [] := normPosixChars_ne_nil l hl
      have h3 : normChars .posix (normPosixChars l) = normPosixChars (normPosixChars l) := by
        simp [normChars, h2]
      rw [h3, normPosixChars_idem l]

/-- C3 (spec-modelled: the `paths` module is absent from the sources, so
`normalize` is modelled from the specification's section 4.1): the
normalizer is a total function of its input string — it can raise nothing —
it is idempotent for both target platforms, the empty string normalizes to
the current-directory canonical value, and unrecognized (malformed) input
degrades to pass-through with only separator rewriting. -/
theorem normalize_path_idempotent (plat : Platform) (p : String) :
    normalize_path plat (normalize_path plat p) = normalize_path plat p
    ∧ normalize_path plat "" = currentDirCanonical
    ∧ (parseDrive (splitSlash (toSlashC p.data)) = none → p.data ≠ [] →
        normalize_path .windows p = String.mk (toBackC p.data))
    ∧ ((∀ d rest, toSlashC p.data = d :: ':' :: rest → isDriveChar d = false) →
        p.data ≠ [] →
        normalize_path .posix p = String.mk (toSlashC p.data)) := by
  refine ⟨?_, ?_, ?_, ?_⟩
  · show String.mk (normChars plat (String.mk (normChars plat p.data)).data)
      = String.mk (normChars plat p.data)
    exact congrArg String.mk (normChars_idem plat p.data)
  · cases plat <;> decide
  · intro hp hne
    show String.mk (normChars .windows p.data) = String.mk (toBackC p.data)
    congr 1
    have h1 : normChars .windows p.data = normWinChars p.data := by
      simp [normChars, hne]
    rw [h1]
    unfold normWinChars
    rw [hp]
  · intro hA hne
    show String.mk (normChars .posix p.data) = String.mk (toSlashC p.data)
    congr 1
    have h1 : normChars .posix p.data = normPosixChars p.data := by
      simp [normChars, hne]
    rw [h1]
    exact normPosixChars_eq_pass p.data (fun d rest heq => by simp [hA d rest heq])

/-- Witness for `normalize_path_idempotent`: the WSL scenario string of the
spec, and an unrecognized input passing through. -/
theorem normalize_path_idempotent_witness :
    normalize_path .windows (normalize_path .windows "/mnt/c/Users/x")
        = normalize_path .windows "/mnt/c/Users/x"
    ∧ normalize_path .windows "" = currentDirCanonical
    ∧ normalize_path .windows "a/b:c" = String.mk (toBackC "a/b:c".data) := by
  have h1 := normalize_path_idempotent Platform.windows "/mnt/c/Users/x"
  have h2 := normalize_path_idempotent Platform.windows "a/b:c"
  exact ⟨h1.1, h1.2.1, h2.2.2.1 (by decide) (by decide)⟩

end FileKit
